import Mathlib

/-!
# Verification of `cassette/fs.go` (go-vcr v4, vendored in crush)

The source file declares the interface `FS` and its disk-backed implementation
`diskFS` with the three methods `ReadFile`, `WriteFile` and `IsFileExists`. Each
method is a short composition of calls into the Go standard library (`os.Stat`,
`os.MkdirAll`, `os.Create`, `Write` and `Close` of `*os.File`, `os.ReadFile`,
`filepath.Dir`, `os.IsNotExist`).

The three methods are embedded line by line, as functions that take the state of
the world and return their result together with the new state. The standard
library calls they make are embedded as an executable model of a POSIX file
system:

* a path is the sequence of its components below a base directory (the root for
  an absolute path, the working directory for a relative one); paths are in
  canonical form (what `filepath.Clean` returns), so `filepath.Dir` drops the
  last component;
* the disk holds regular files (a byte sequence) and directories (with the mode
  they were created with); every file has one name: there are no hard links, no
  symbolic links and no special files, and the process umask clears no bit of the
  mode `0o755`;
* the state also holds the table of open file handles of the process;
* `lookup` tells what is stored at a path: it fails with `ENOENT` at a missing
  component and with `ENOTDIR` when it has to pass through a regular file;
* failures that do not follow from what is stored are supplied by a `Faults`
  record. Every call that names a path resolves it with `resolve`, which is the
  lookup with the refusals of the environment: the lookup of any component may be
  refused (`access`: permission denied on the directory searched, name too long,
  invalid name), for `os.Stat`, `os.ReadFile`, `os.Mkdir` and `os.Create` alike.
  Opening what is at a path for reading may be refused as well (`read`:
  permission denied on the file or directory itself); `os.Create` opens for
  reading and writing, so it is refused where a read is. Besides, each `mkdir`,
  each file creation and each write may fail with any error code (permission
  denied on the parent, disk full, quota, read-only device), a write also after
  only a part of the bytes has reached the file. A refusal is never the not-exist
  error. Reading a directory fails with `EISDIR`.

What is stored is a map from paths to entries. A state is `WellFormed` when every
entry lies below a path that leads to a directory, as on a real disk; the empty
disk is well-formed and `WriteFile` keeps a state well-formed
(`WriteFile_wellFormed`). Only the statement about the creation of missing parent
directories needs this assumption.
-/

namespace cassette

/-! ## Data model -/

/-- A canonical path: the base directory, or a named child of a path. -/
inductive Path where
  | root : Path
  | child (parent : Path) (name : String) : Path
  deriving DecidableEq, Repr

/-- The path with the given components, outermost first:
`Path.ofList ["a", "b", "c.txt"]` is `a/b/c.txt`. -/
def Path.ofList (cs : List String) : Path :=
  cs.foldl Path.child Path.root

/-- The proper ancestors of a path, nearest first, ending with the base directory. -/
def Path.ancestors : Path → List Path
  | .root => []
  | .child parent _ => parent :: parent.ancestors

/-- Go's `[]byte`. -/
abbrev Bytes := List UInt8

/-- Error codes of the operating system. -/
inductive Errno where
  | ENOENT | ENOTDIR | EISDIR | EEXIST | EACCES | ENAMETOOLONG | EINVAL | ENOSPC | EROFS
  | EDQUOT | EBADF
  deriving DecidableEq, Repr

/-- A refusal by the operating system that does not follow from what is stored: permission
denied, a name that is too long, an invalid name. A refusal is never the not-exist error. -/
inductive Refusal where
  | EACCES | ENAMETOOLONG | EINVAL
  deriving DecidableEq, Repr

/-- The error code of a refusal. -/
def Refusal.errno : Refusal → Errno
  | .EACCES => .EACCES
  | .ENAMETOOLONG => .ENAMETOOLONG
  | .EINVAL => .EINVAL

/-- Go's `*fs.PathError`: the failed operation, the path and the underlying error code. -/
structure PathError where
  op : String
  path : Path
  err : Errno
  deriving DecidableEq, Repr

/-- What is stored at a path. -/
inductive Node where
  | file (data : Bytes) : Node
  | dir (perm : Nat) : Node
  deriving DecidableEq, Repr

/-- Whether the node is a directory. -/
def Node.isDir : Node → Bool
  | .dir _ => true
  | .file _ => false

/-- Go's `*os.File`: an open handle, with its descriptor number and the name it was
opened with. -/
structure File where
  fd : Nat
  name : Path
  deriving DecidableEq, Repr

/-- Go's `fs.FileInfo`, as far as the code looks at it. -/
structure FileInfo where
  isDir : Bool
  deriving DecidableEq, Repr

/-- The state of the world: what is stored at each path, and the open handles of the
process. The base directory always exists and is a directory, whatever `nodes` says at
`Path.root`. -/
structure Disk where
  nodes : Path → Option Node
  handles : List File

/-- Failures injected by the environment. `access p = some r`: looking up the last
component of `p` in its parent directory is refused with `r`, in every call that names `p`
or a path below it. `read p = some r`: opening what is at `p` for reading is refused with
`r`. `mkdir p = some e`: creating the directory `p` fails with `e`. `create p = some e`:
creating or truncating the file `p` fails with `e`. `write p = some (n, e)`: a write to
the file `p` fails with `e` after `n` bytes. -/
structure Faults where
  access : Path → Option Refusal
  read : Path → Option Refusal
  mkdir : Path → Option Errno
  create : Path → Option Errno
  write : Path → Option (Nat × Errno)

/-- The environment that injects no failure. -/
def Faults.none : Faults :=
  { access := fun _ => Option.none, read := fun _ => Option.none,
    mkdir := fun _ => Option.none, create := fun _ => Option.none,
    write := fun _ => Option.none }

/-- The disk with nothing on it but the base directory, and no open handle. -/
def Disk.empty : Disk :=
  { nodes := fun _ => Option.none, handles := [] }

/-- Store `n` at path `p`. -/
def Disk.setNode (s : Disk) (p : Path) (n : Node) : Disk :=
  { s with nodes := fun q => if q = p then some n else s.nodes q }

deriving instance DecidableEq for Except

/-! ## The standard library calls -/

/-- What is stored at a path, seen from the base directory: whether the path leads to an
entry through directories, and if so whether that entry is a directory. -/
def lookup (s : Disk) : Path → Except Errno Bool
  | .root => .ok true
  | .child parent c =>
    match lookup s parent with
    | .error e => .error e
    | .ok false => .error .ENOTDIR
    | .ok true =>
      match s.nodes (.child parent c) with
      | Option.none => .error .ENOENT
      | some n => .ok n.isDir

/-- Path resolution by the operating system: the lookup, component by component, with the
refusals of the environment. -/
def resolve (fl : Faults) (s : Disk) : Path → Except Errno Bool
  | .root => .ok true
  | .child parent c =>
    match resolve fl s parent with
    | .error e => .error e
    | .ok false => .error .ENOTDIR
    | .ok true =>
      match fl.access (.child parent c) with
      | some r => .error r.errno
      | Option.none =>
        match s.nodes (.child parent c) with
        | Option.none => .error .ENOENT
        | some n => .ok n.isDir

/-- The function `filepath.Dir` on canonical paths. -/
def filepathDir : Path → Path
  | .root => .root
  | .child parent _ => parent

/-- The call `os.Stat` (and `os.Lstat`: there are no symbolic links). -/
def osStat (fl : Faults) (s : Disk) (name : Path) : Except PathError FileInfo :=
  match resolve fl s name with
  | .error e => .error ⟨"stat", name, e⟩
  | .ok d => .ok ⟨d⟩

/-- The `error` of a Go `(value, error)` result: `nil` is `none`. -/
def errOf {α : Type} : Except PathError α → Option PathError
  | .error e => some e
  | .ok _ => Option.none

/-- The predicate `os.IsNotExist`: the error is non-nil and its underlying code is
`ENOENT`. -/
def IsNotExist : Option PathError → Bool
  | some e => decide (e.err = Errno.ENOENT)
  | Option.none => false

/-- The call `os.Mkdir`. -/
def osMkdir (fl : Faults) (s : Disk) (path : Path) (perm : Nat) : Option PathError × Disk :=
  match fl.mkdir path with
  | some e => (some ⟨"mkdir", path, e⟩, s)
  | Option.none =>
    match path with
    | .root => (some ⟨"mkdir", path, .EEXIST⟩, s)
    | .child parent _ =>
      match resolve fl s parent with
      | .error e => (some ⟨"mkdir", path, e⟩, s)
      | .ok false => (some ⟨"mkdir", path, .ENOTDIR⟩, s)
      | .ok true =>
        match fl.access path with
        | some r => (some ⟨"mkdir", path, r.errno⟩, s)
        | Option.none =>
          match s.nodes path with
          | some _ => (some ⟨"mkdir", path, .EEXIST⟩, s)
          | Option.none => (Option.none, s.setNode path (.dir perm))

/-- The call `os.MkdirAll`: the fast path (the path is there already), else the parent
first and then `Mkdir`, whose failure is forgiven when the directory is there after all. -/
def osMkdirAll (fl : Faults) (s : Disk) (path : Path) (perm : Nat) : Option PathError × Disk :=
  match path with
  | .root =>
    match osStat fl s .root with
    | .ok dir => if dir.isDir then (Option.none, s) else (some ⟨"mkdir", .root, .ENOTDIR⟩, s)
    | .error _ => osMkdir fl s .root perm
  | .child parent c =>
    match osStat fl s (.child parent c) with
    | .ok dir =>
      if dir.isDir then (Option.none, s) else (some ⟨"mkdir", .child parent c, .ENOTDIR⟩, s)
    | .error _ =>
      match osMkdirAll fl s parent perm with
      | (some err, s1) => (some err, s1)
      | (Option.none, s1) =>
        match osMkdir fl s1 (.child parent c) perm with
        | (some err, s2) =>
          match osStat fl s2 (.child parent c) with
          | .ok dir => if dir.isDir then (Option.none, s2) else (some err, s2)
          | .error _ => (some err, s2)
        | (Option.none, s2) => (Option.none, s2)

/-- The lowest descriptor number that is not in use. -/
def lowestFree (used : List Nat) : Nat :=
  ((List.range (used.length + 1)).find? (fun n => !used.contains n)).getD used.length

/-- A new handle on `name`, entered in the table of open handles. -/
def Disk.openHandle (s : Disk) (name : Path) : File × Disk :=
  let f : File := ⟨lowestFree (s.handles.map File.fd), name⟩
  (f, { s with handles := f :: s.handles })

/-- The call `os.Create`: open for reading and writing, create the file if it is missing,
truncate it if it is there. It is refused where the lookup of the name or a read of it is
refused. -/
def osCreate (fl : Faults) (s : Disk) (name : Path) : Except PathError File × Disk :=
  match fl.create name with
  | some e => (.error ⟨"open", name, e⟩, s)
  | Option.none =>
    match name with
    | .root => (.error ⟨"open", name, .EISDIR⟩, s)
    | .child parent _ =>
      match resolve fl s parent with
      | .error e => (.error ⟨"open", name, e⟩, s)
      | .ok false => (.error ⟨"open", name, .ENOTDIR⟩, s)
      | .ok true =>
        match fl.access name with
        | some r => (.error ⟨"open", name, r.errno⟩, s)
        | Option.none =>
          match fl.read name with
          | some r => (.error ⟨"open", name, r.errno⟩, s)
          | Option.none =>
            match s.nodes name with
            | some (.dir _) => (.error ⟨"open", name, .EISDIR⟩, s)
            | _ =>
              let (f, s1) := (s.setNode name (.file [])).openHandle name
              (.ok f, s1)

/-- The content of a file after `b` is written at its start. -/
def overlay (old b : Bytes) : Bytes :=
  b ++ old.drop b.length

/-- The method `Write` of `*os.File`, for the first write on a handle (at offset 0): the
number of bytes written and the error. -/
def fileWrite (fl : Faults) (s : Disk) (f : File) (b : Bytes) :
    (Nat × Option PathError) × Disk :=
  if f ∈ s.handles then
    match s.nodes f.name with
    | some (.file old) =>
      match fl.write f.name with
      | some (n, e) =>
        ((min n b.length, some ⟨"write", f.name, e⟩),
          s.setNode f.name (.file (overlay old (b.take n))))
      | Option.none => ((b.length, Option.none), s.setNode f.name (.file (overlay old b)))
    | _ => ((0, some ⟨"write", f.name, .EBADF⟩), s)
  else ((0, some ⟨"write", f.name, .EBADF⟩), s)

/-- The method `Close` of `*os.File`: the descriptor leaves the table of open handles. -/
def fileClose (s : Disk) (f : File) : Option PathError × Disk :=
  if f ∈ s.handles then
    (Option.none, { s with handles := s.handles.filter (fun g => g.fd ≠ f.fd) })
  else (some ⟨"close", f.name, .EBADF⟩, s)

/-- The call `os.Open`: open for reading. -/
def osOpen (fl : Faults) (s : Disk) (name : Path) : Except PathError File × Disk :=
  match resolve fl s name with
  | .error e => (.error ⟨"open", name, e⟩, s)
  | .ok _ =>
    match fl.read name with
    | some r => (.error ⟨"open", name, r.errno⟩, s)
    | Option.none =>
      let (f, s1) := s.openHandle name
      (.ok f, s1)

/-- Read an open file to its end, through its handle. -/
def fileReadAll (s : Disk) (f : File) : Bytes × Option PathError :=
  if f ∈ s.handles then
    match lookup s f.name with
    | .ok true => ([], some ⟨"read", f.name, .EISDIR⟩)
    | .ok false =>
      match s.nodes f.name with
      | some (.file d) => (d, Option.none)
      | _ => ([], some ⟨"read", f.name, .EBADF⟩)
    | .error e => ([], some ⟨"read", f.name, e⟩)
  else ([], some ⟨"read", f.name, .EBADF⟩)

/-- The call `os.ReadFile`: open, read to the end, close. -/
def osReadFile (fl : Faults) (s : Disk) (name : Path) : (Bytes × Option PathError) × Disk :=
  match osOpen fl s name with
  | (.error err, s1) => (([], some err), s1)
  | (.ok f, s1) =>
    let r := fileReadAll s1 f
    let (_, s2) := fileClose s1 f
    (r, s2)

/-! ## The source file: interface `FS`, `NewDiskFS` and the methods of `diskFS` -/

/-- The interface `FS`. -/
structure FS where
  ReadFile : Disk → Path → (Bytes × Option PathError) × Disk
  WriteFile : Disk → Path → Bytes → Option PathError × Disk
  IsFileExists : Disk → Path → Bool × Disk

/-- The method `diskFS.ReadFile` (the receiver has no field). -/
def diskFS.ReadFile (fl : Faults) (s : Disk) (name : Path) :
    (Bytes × Option PathError) × Disk :=
  osReadFile fl s name

/-- The method `diskFS.WriteFile`. -/
def diskFS.WriteFile (fl : Faults) (s : Disk) (name : Path) (data : Bytes) :
    Option PathError × Disk :=
  let cassetteDir := filepathDir name
  let made : Option PathError × Disk :=
    if IsNotExist (errOf (osStat fl s cassetteDir)) then
      osMkdirAll fl s cassetteDir 0o755
    else (Option.none, s)
  match made with
  | (some err, s1) => (some err, s1)
  | (Option.none, s1) =>
    match osCreate fl s1 name with
    | (.error err, s2) => (some err, s2)
    | (.ok f, s2) =>
      let ((_, err), s3) := fileWrite fl s2 f data
      let (_, s4) := fileClose s3 f
      (err, s4)

/-- The method `diskFS.IsFileExists`. -/
def diskFS.IsFileExists (fl : Faults) (s : Disk) (name : Path) : Bool × Disk :=
  let err := errOf (osStat fl s name)
  (!IsNotExist err, s)

/-- The constructor `NewDiskFS`, in an environment with the failures `fl`. -/
def NewDiskFS (fl : Faults) : FS :=
  { ReadFile := diskFS.ReadFile fl, WriteFile := diskFS.WriteFile fl,
    IsFileExists := diskFS.IsFileExists fl }

/-! ## Notions used in the statements -/

/-- The number of components of a path. -/
def Path.depth : Path → Nat
  | .root => 0
  | .child parent _ => parent.depth + 1

/-- The kind of what is stored at `q`: nothing, a file (`false`) or a directory (`true`). -/
def kindAt (s : Disk) (q : Path) : Option Bool :=
  (s.nodes q).map Node.isDir

/-- The only change from `s` to `t` in what is stored: entries that were missing may
hold a directory with mode `perm`. -/
def Grows (perm : Nat) (s t : Disk) : Prop :=
  ∀ q, t.nodes q = s.nodes q ∨ (s.nodes q = Option.none ∧ t.nodes q = some (.dir perm))

/-- A state is well-formed when no entry is stored below a path that does not lead to a
directory: the stored entries then form a tree of directories and files. -/
def WellFormed (s : Disk) : Prop :=
  ∀ p c, s.nodes (.child p c) ≠ Option.none → lookup s p = .ok true

/-- Whether the environment refuses no component of the path. -/
def unrefused (fl : Faults) : Path → Bool
  | .root => true
  | .child parent c => unrefused fl parent && (fl.access (.child parent c)).isNone

/-- Lines 57 to 62 of `WriteFile`: the parent directory is created when the stat of it
reports that it does not exist. -/
def ensureDir (fl : Faults) (s : Disk) (name : Path) : Option PathError × Disk :=
  if IsNotExist (errOf (osStat fl s (filepathDir name))) then
    osMkdirAll fl s (filepathDir name) 0o755
  else (Option.none, s)

/-! ## Concrete inputs -/

/-- The bytes of the text `hello`. -/
def hello : Bytes := [104, 101, 108, 108, 111]

/-- The path `a/b/c.txt`. -/
def abcTxt : Path := Path.ofList ["a", "b", "c.txt"]

/-- The path `a/b`. -/
def underA : Path := Path.ofList ["a", "b"]

/-- The path `a/d.txt`. -/
def dTxt : Path := Path.ofList ["a", "d.txt"]

/-- The disk after `hello` was written to the file `a` on the empty disk: its only entry is
the regular file `a`. -/
def fileAtA : Disk := (diskFS.WriteFile Faults.none Disk.empty (Path.ofList ["a"]) hello).2

/-- The environment in which creating the directory `a/b` is refused, and nothing else
fails. -/
def denyMkdirAB : Faults :=
  { Faults.none with mkdir := fun p => if p = underA then some Errno.EACCES else Option.none }

/-- The environment in which the lookup of `a` in the base directory is refused for lack
of permission, and nothing else fails. -/
def denySearchA : Faults :=
  { Faults.none with
    access := fun p => if p = Path.ofList ["a"] then some Refusal.EACCES else Option.none }

/-- The environment in which a write to `a/b/c.txt` fails for lack of space after two
bytes, and nothing else fails. -/
def fullAfterTwo : Faults :=
  { Faults.none with
    write := fun p => if p = abcTxt then some (2, Errno.ENOSPC) else Option.none }

/-! ## Lookup -/

theorem depth_lt_of_mem_ancestors {p q : Path} (h : q ∈ p.ancestors) : q.depth < p.depth := by
  induction p with
  | root => simp [Path.ancestors] at h
  | child parent c ih =>
    simp only [Path.ancestors, List.mem_cons] at h
    rcases h with rfl | h
    · simp [Path.depth]
    · have := ih h
      simp only [Path.depth]
      omega

theorem not_mem_ancestors_self (p : Path) : p ∉ p.ancestors := fun h =>
  Nat.lt_irrefl _ (depth_lt_of_mem_ancestors h)

theorem child_not_mem_ancestors (p : Path) (c : String) :
    Path.child p c ∉ p.ancestors := fun h => by
  have := depth_lt_of_mem_ancestors h
  simp only [Path.depth] at this
  omega

theorem child_ne_self (p : Path) (c : String) : Path.child p c ≠ p := fun h => by
  have := congrArg Path.depth h
  simp only [Path.depth] at this
  omega

theorem lookup_child (s : Disk) (parent : Path) (c : String) :
    lookup s (.child parent c) =
      match lookup s parent with
      | .error e => .error e
      | .ok false => .error .ENOTDIR
      | .ok true =>
        match kindAt s (.child parent c) with
        | Option.none => .error .ENOENT
        | some b => .ok b := by
  simp only [lookup, kindAt]
  cases lookup s parent with
  | error e => rfl
  | ok b =>
    cases b with
    | false => rfl
    | true => cases s.nodes (.child parent c) <;> rfl

theorem lookup_congr {s t : Disk} (p : Path)
    (h : ∀ q, q = p ∨ q ∈ p.ancestors → kindAt t q = kindAt s q) :
    lookup t p = lookup s p := by
  induction p with
  | root => rfl
  | child parent c ih =>
    have hp : lookup t parent = lookup s parent :=
      ih (fun q hq => h q (Or.inr (by
        simp only [Path.ancestors, List.mem_cons]
        exact hq)))
    rw [lookup_child, lookup_child, hp, h _ (Or.inl rfl)]

theorem lookup_child_ok {s : Disk} {parent : Path} {c : String} {b : Bool}
    (h : lookup s (.child parent c) = .ok b) :
    lookup s parent = .ok true ∧ ∃ n, s.nodes (.child parent c) = some n ∧ n.isDir = b := by
  simp only [lookup] at h
  cases hp : lookup s parent with
  | error e => simp [hp] at h
  | ok d =>
    cases d with
    | false => simp [hp] at h
    | true =>
      cases hn : s.nodes (.child parent c) with
      | none => simp [hp, hn] at h
      | some n =>
        simp only [hp, hn, Except.ok.injEq] at h
        exact ⟨rfl, n, rfl, h⟩

theorem lookup_child_of {s : Disk} {parent : Path} {c : String} {n : Node}
    (hp : lookup s parent = .ok true) (hn : s.nodes (.child parent c) = some n) :
    lookup s (.child parent c) = .ok n.isDir := by
  simp only [lookup, hp, hn]

theorem Grows.refl (perm : Nat) (s : Disk) : Grows perm s s := fun _ => Or.inl rfl

theorem Grows.trans {perm : Nat} {s t u : Disk} (h1 : Grows perm s t) (h2 : Grows perm t u) :
    Grows perm s u := by
  intro q
  rcases h1 q with h1 | ⟨h1, h1b⟩
  · rcases h2 q with h2 | ⟨h2, h2b⟩
    · exact Or.inl (h2.trans h1)
    · exact Or.inr ⟨h1 ▸ h2, h2b⟩
  · rcases h2 q with h2 | ⟨h2, _⟩
    · exact Or.inr ⟨h1, h2.trans h1b⟩
    · rw [h1b] at h2
      cases h2

theorem setNode_nodes_self (s : Disk) (p : Path) (n : Node) : (s.setNode p n).nodes p = some n := by
  simp [Disk.setNode]

theorem setNode_nodes_ne (s : Disk) {p q : Path} (n : Node) (h : q ≠ p) :
    (s.setNode p n).nodes q = s.nodes q := by
  simp [Disk.setNode, h]

/-- Storing a node at `p` does not change the lookup of a path that does not pass through `p`. -/
theorem lookup_setNode_off (s : Disk) {p q : Path} (n : Node) (h1 : p ≠ q)
    (h2 : p ∉ q.ancestors) :
    lookup (s.setNode p n) q = lookup s q := by
  apply lookup_congr
  intro r hr
  have hne : r ≠ p := by
    rcases hr with rfl | hr
    · exact fun h => h1 h.symm
    · exact fun h => h2 (h ▸ hr)
  simp only [kindAt, setNode_nodes_ne s n hne]

theorem lowestFree_not_mem (used : List Nat) : lowestFree used ∉ used := by
  unfold lowestFree
  cases h : (List.range (used.length + 1)).find? (fun n => !used.contains n) with
  | some n =>
    have := List.find?_some h
    simpa using this
  | none =>
    exfalso
    rw [List.find?_eq_none] at h
    have hsub : List.range (used.length + 1) ⊆ used := by
      intro n hn
      have := h n hn
      simpa using this
    have hle := (List.subperm_of_subset (List.nodup_range _) hsub).length_le
    simp at hle

theorem filter_fresh (l : List File) (f : File) (h : f.fd ∉ l.map File.fd) :
    (f :: l).filter (fun g => g.fd ≠ f.fd) = l := by
  rw [List.filter_cons_of_neg (by simp)]
  apply List.filter_eq_self.mpr
  intro g hg
  have : g.fd ≠ f.fd := fun e => h (e ▸ List.mem_map_of_mem File.fd hg)
  simpa using this

/-- Closing a handle right after it was opened restores the table of open handles. -/
theorem close_openHandle (s : Disk) (name : Path) :
    (fileClose (s.openHandle name).2 (s.openHandle name).1).2.handles = s.handles := by
  have hf := lowestFree_not_mem (s.handles.map File.fd)
  simp only [fileClose, Disk.openHandle, List.mem_cons, true_or, if_true]
  exact filter_fresh _ _ hf

/-! ## Resolution with refusals -/

theorem Refusal.errno_ne (r : Refusal) : r.errno ≠ Errno.ENOENT := by
  cases r <;> exact fun h => by cases h

theorem isNotExist_refusal (op : String) (p : Path) (r : Refusal) :
    IsNotExist (some ⟨op, p, r.errno⟩) = false := by
  cases r <;> rfl

theorem unrefused_child {fl : Faults} {parent : Path} {c : String} :
    unrefused fl (.child parent c) = true ↔
      unrefused fl parent = true ∧ fl.access (.child parent c) = Option.none := by
  simp [unrefused]

theorem unrefused_none (p : Path) : unrefused Faults.none p = true := by
  induction p with
  | root => rfl
  | child parent c ih => exact unrefused_child.mpr ⟨ih, rfl⟩

/-- Where nothing is refused, resolution is the lookup. -/
theorem resolve_of_unrefused {fl : Faults} (s : Disk) {p : Path} (h : unrefused fl p = true) :
    resolve fl s p = lookup s p := by
  induction p with
  | root => rfl
  | child parent c ih =>
    obtain ⟨h1, h2⟩ := unrefused_child.mp h
    simp only [resolve, lookup, ih h1, h2]

theorem resolve_none (s : Disk) (p : Path) : resolve Faults.none s p = lookup s p :=
  resolve_of_unrefused s (unrefused_none p)

/-- A path resolves exactly when it leads to an entry and no component of it is refused. -/
theorem resolve_ok_iff {fl : Faults} {s : Disk} {p : Path} {b : Bool} :
    resolve fl s p = .ok b ↔ lookup s p = .ok b ∧ unrefused fl p = true := by
  constructor
  · intro h
    have hu : unrefused fl p = true := by
      induction p generalizing b with
      | root => rfl
      | child parent c ih =>
        simp only [resolve] at h
        cases hp : resolve fl s parent with
        | error e => simp [hp] at h
        | ok d =>
          cases d with
          | false => simp [hp] at h
          | true =>
            cases ha : fl.access (.child parent c) with
            | some r => simp [hp, ha] at h
            | none => exact unrefused_child.mpr ⟨ih hp, ha⟩
    rw [resolve_of_unrefused s hu] at h
    exact ⟨h, hu⟩
  · rintro ⟨h1, h2⟩
    rw [resolve_of_unrefused s h2, h1]

/-- The ways a resolution fails: at a missing component, at a regular file in the way, or
with a refusal. -/
theorem resolve_error_cases {fl : Faults} {s : Disk} {p : Path} {e : Errno}
    (h : resolve fl s p = .error e) :
    e = .ENOENT ∨ (e = .ENOTDIR ∧ ∃ q, q ∈ p.ancestors ∧ lookup s q = .ok false) ∨
      ∃ r : Refusal, e = r.errno := by
  induction p with
  | root => cases h
  | child parent c ih =>
    simp only [resolve] at h
    cases hp : resolve fl s parent with
    | error e2 =>
      simp only [hp, Except.error.injEq] at h
      subst h
      rcases ih hp with h1 | ⟨h1, q, hq, hq2⟩ | h1
      · exact Or.inl h1
      · refine Or.inr (Or.inl ⟨h1, q, ?_, hq2⟩)
        simp only [Path.ancestors, List.mem_cons]
        exact Or.inr hq
      · exact Or.inr (Or.inr h1)
    | ok d =>
      cases d with
      | false =>
        simp only [hp, Except.error.injEq] at h
        exact Or.inr (Or.inl ⟨h.symm, parent, by simp [Path.ancestors],
          (resolve_ok_iff.mp hp).1⟩)
      | true =>
        cases ha : fl.access (.child parent c) with
        | some r =>
          simp only [hp, ha, Except.error.injEq] at h
          exact Or.inr (Or.inr ⟨r, h.symm⟩)
        | none =>
          cases hn : s.nodes (.child parent c) with
          | none =>
            simp only [hp, ha, hn, Except.error.injEq] at h
            exact Or.inl h.symm
          | some n => simp [hp, ha, hn] at h

/-- A refused component that the resolution reaches decides its outcome. -/
theorem resolve_refused {fl : Faults} {s : Disk} {name parent : Path} {c : String}
    {r : Refusal} (hq : Path.child parent c = name ∨ Path.child parent c ∈ name.ancestors)
    (hp : resolve fl s parent = .ok true) (hr : fl.access (.child parent c) = some r) :
    resolve fl s name = .error r.errno := by
  induction name with
  | root =>
    rcases hq with hq | hq
    · cases hq
    · simp [Path.ancestors] at hq
  | child np nc ih =>
    rcases hq with hq | hq
    · cases hq
      simp only [resolve, hp, hr]
    · simp only [Path.ancestors, List.mem_cons] at hq
      have hnp : resolve fl s np = .error r.errno := by
        rcases hq with hq | hq
        · exact ih (Or.inl hq)
        · exact ih (Or.inr hq)
      simp only [resolve, hnp]

/-- What is there resolves, unless a component is refused. -/
theorem resolve_of_lookup_ok (fl : Faults) {s : Disk} {p : Path} {b : Bool}
    (h : lookup s p = .ok b) :
    resolve fl s p = .ok b ∨ ∃ r : Refusal, resolve fl s p = .error r.errno := by
  induction p generalizing b with
  | root => exact Or.inl h
  | child parent c ih =>
    obtain ⟨hp, n, hn, hb⟩ := lookup_child_ok h
    rcases ih hp with h1 | ⟨r, h1⟩
    · cases ha : fl.access (.child parent c) with
      | some r => exact Or.inr ⟨r, by simp only [resolve, h1, ha]⟩
      | none => exact Or.inl (by simp only [resolve, h1, ha, hn, hb])
    · exact Or.inr ⟨r, by simp only [resolve, h1]⟩

theorem osStat_ok_iff {fl : Faults} {s : Disk} {p : Path} {fi : FileInfo} :
    osStat fl s p = .ok fi ↔ resolve fl s p = .ok fi.isDir := by
  unfold osStat
  cases resolve fl s p with
  | error e => simp
  | ok d =>
    cases fi
    simp

theorem isNotExist_stat_iff {fl : Faults} {s : Disk} {p : Path} :
    IsNotExist (errOf (osStat fl s p)) = true ↔ resolve fl s p = .error .ENOENT := by
  unfold osStat
  cases resolve fl s p with
  | error c => simp [errOf, IsNotExist]
  | ok d => simp [errOf, IsNotExist]

/-- What `os.Mkdir` does: it fails and changes nothing, or it enters the directory. -/
theorem osMkdir_cases (fl : Faults) (s : Disk) (p : Path) (perm : Nat) :
    (∃ e, osMkdir fl s p perm = (some e, s)) ∨
    (∃ parent c, p = .child parent c ∧ fl.mkdir p = Option.none ∧
      lookup s parent = .ok true ∧ unrefused fl p = true ∧ s.nodes p = Option.none ∧
      osMkdir fl s p perm = (Option.none, s.setNode p (.dir perm))) := by
  cases hf : fl.mkdir p with
  | some e => exact Or.inl ⟨_, by simp only [osMkdir, hf]; rfl⟩
  | none =>
    cases p with
    | root => exact Or.inl ⟨_, by simp only [osMkdir, hf]; rfl⟩
    | child parent c =>
      cases hl : resolve fl s parent with
      | error e => exact Or.inl ⟨_, by simp only [osMkdir, hf, hl]; rfl⟩
      | ok d =>
        cases d with
        | false => exact Or.inl ⟨_, by simp only [osMkdir, hf, hl]; rfl⟩
        | true =>
          cases ha : fl.access (.child parent c) with
          | some r => exact Or.inl ⟨_, by simp only [osMkdir, hf, hl, ha]; rfl⟩
          | none =>
            cases hn : s.nodes (.child parent c) with
            | some n => exact Or.inl ⟨_, by simp only [osMkdir, hf, hl, ha, hn]; rfl⟩
            | none =>
              obtain ⟨h1, h2⟩ := resolve_ok_iff.mp hl
              exact Or.inr ⟨parent, c, rfl, rfl, h1, unrefused_child.mpr ⟨h2, ha⟩, rfl,
                by simp only [osMkdir, hf, hl, ha, hn]⟩

theorem grows_setNode_dir (s : Disk) (p : Path) (perm : Nat) (h : s.nodes p = Option.none) :
    Grows perm s (s.setNode p (.dir perm)) := by
  intro q
  by_cases hq : q = p
  · subst hq
    exact Or.inr ⟨h, setNode_nodes_self _ _ _⟩
  · exact Or.inl (setNode_nodes_ne _ _ hq)

theorem osMkdirAll_of_dir (fl : Faults) {s : Disk} {p : Path} (perm : Nat)
    (h : resolve fl s p = .ok true) : osMkdirAll fl s p perm = (Option.none, s) := by
  cases p <;> simp [osMkdirAll, osStat, h]

theorem osMkdirAll_of_file (fl : Faults) {s : Disk} {p : Path} (perm : Nat)
    (h : resolve fl s p = .ok false) :
    osMkdirAll fl s p perm = (some ⟨"mkdir", p, .ENOTDIR⟩, s) := by
  cases p <;> simp [osMkdirAll, osStat, h]

theorem osMkdirAll_of_error (fl : Faults) {s : Disk} {parent : Path} {c : String} {e : Errno}
    (perm : Nat) (h : resolve fl s (.child parent c) = .error e) :
    osMkdirAll fl s (.child parent c) perm =
      match osMkdirAll fl s parent perm with
      | (some err, s1) => (some err, s1)
      | (Option.none, s1) =>
        match osMkdir fl s1 (.child parent c) perm with
        | (some err, s2) =>
          match resolve fl s2 (.child parent c) with
          | .ok true => (Option.none, s2)
          | _ => (some err, s2)
        | (Option.none, s2) => (Option.none, s2) := by
  rw [osMkdirAll]
  simp only [osStat, h]
  cases osMkdirAll fl s parent perm with
  | mk e1 s1 =>
    cases e1 with
    | some err => rfl
    | none =>
      simp only
      cases osMkdir fl s1 (.child parent c) perm with
      | mk e2 s2 =>
        cases e2 with
        | none => rfl
        | some err =>
          simp only
          cases resolve fl s2 (.child parent c) with
          | error _ => rfl
          | ok d => cases d <;> simp

/-- The effect of `os.MkdirAll`: open handles stay, missing entries at the path and its
ancestors may become directories with the requested mode, nothing else changes, and on
success the path resolves to a directory. -/
theorem osMkdirAll_effect (fl : Faults) (perm : Nat) (p : Path) (s : Disk) :
    (osMkdirAll fl s p perm).2.handles = s.handles ∧
    Grows perm s (osMkdirAll fl s p perm).2 ∧
    (∀ q, q ≠ p → q ∉ p.ancestors → (osMkdirAll fl s p perm).2.nodes q = s.nodes q) ∧
    ((osMkdirAll fl s p perm).1 = Option.none →
      resolve fl (osMkdirAll fl s p perm).2 p = .ok true) := by
  induction p with
  | root =>
    rw [osMkdirAll_of_dir fl perm (rfl : resolve fl s .root = .ok true)]
    exact ⟨rfl, Grows.refl _ _, fun _ _ _ => rfl, fun _ => rfl⟩
  | child parent c ih =>
    obtain ⟨ih1, ih2, ih3, ih4⟩ := ih
    cases hst : resolve fl s (.child parent c) with
    | ok d =>
      cases d with
      | true =>
        rw [osMkdirAll_of_dir fl perm hst]
        exact ⟨rfl, Grows.refl _ _, fun _ _ _ => rfl, fun _ => hst⟩
      | false =>
        rw [osMkdirAll_of_file fl perm hst]
        exact ⟨rfl, Grows.refl _ _, fun _ _ _ => rfl, fun h => by cases h⟩
    | error e0 =>
      rw [osMkdirAll_of_error fl perm hst]
      revert ih1 ih2 ih3 ih4
      cases osMkdirAll fl s parent perm with
      | mk e1 s1 =>
        intro ih1 ih2 ih3 ih4
        simp only at ih1 ih2 ih3 ih4
        have hoff : ∀ q, q ≠ .child parent c → q ∉ (Path.child parent c).ancestors →
            s1.nodes q = s.nodes q := by
          intro q _ h2
          simp only [Path.ancestors, List.mem_cons, not_or] at h2
          exact ih3 q h2.1 h2.2
        cases e1 with
        | some err =>
          exact ⟨ih1, ih2, hoff, fun h => by cases h⟩
        | none =>
          simp only
          rcases osMkdir_cases fl s1 (.child parent c) perm with
            ⟨e, hm⟩ | ⟨par, c2, heq, _, hl, hu, hn, hm⟩
          · rw [hm]
            simp only
            cases hst2 : resolve fl s1 (.child parent c) with
            | ok d =>
              cases d with
              | true => exact ⟨ih1, ih2, hoff, fun _ => hst2⟩
              | false => exact ⟨ih1, ih2, hoff, fun h => by cases h⟩
            | error e2 =>
              exact ⟨ih1, ih2, hoff, fun h => by cases h⟩
          · cases heq
            rw [hm]
            simp only
            refine ⟨ih1, ih2.trans (grows_setNode_dir _ _ _ hn), ?_, fun _ => ?_⟩
            · intro q h1 h2
              rw [setNode_nodes_ne _ _ h1]
              exact hoff q h1 h2
            · have hpar : lookup (s1.setNode (.child parent c) (.dir perm)) parent = .ok true := by
                rw [lookup_setNode_off _ _ (child_ne_self parent c)
                  (child_not_mem_ancestors parent c)]
                exact hl
              exact resolve_ok_iff.mpr ⟨lookup_child_of hpar (setNode_nodes_self _ _ _), hu⟩

theorem WriteFile_eq (fl : Faults) (s : Disk) (name : Path) (data : Bytes) :
    diskFS.WriteFile fl s name data =
      match ensureDir fl s name with
      | (some err, s1) => (some err, s1)
      | (Option.none, s1) =>
        match osCreate fl s1 name with
        | (.error err, s2) => (some err, s2)
        | (.ok f, s2) =>
          ((fileWrite fl s2 f data).1.2, (fileClose (fileWrite fl s2 f data).2 f).2) :=
  rfl

theorem ensureDir_effect (fl : Faults) (s : Disk) (name : Path) :
    (ensureDir fl s name).2.handles = s.handles ∧
    Grows 0o755 s (ensureDir fl s name).2 ∧
    (∀ q, q ∉ name.ancestors → (ensureDir fl s name).2.nodes q = s.nodes q) := by
  unfold ensureDir
  split
  · obtain ⟨h1, h2, h3, _⟩ := osMkdirAll_effect fl 0o755 (filepathDir name) s
    refine ⟨h1, h2, fun q hq => ?_⟩
    cases name with
    | root => rfl
    | child parent c =>
      simp only [Path.ancestors, List.mem_cons, not_or] at hq
      exact h3 q hq.1 hq.2
  · exact ⟨rfl, Grows.refl _ _, fun _ _ => rfl⟩

/-- What `os.Create` does: it fails and changes nothing, or the parent is a directory, the
name is not one, and the file is there, empty, with a new handle on it. -/
theorem osCreate_cases (fl : Faults) (s : Disk) (name : Path) :
    (∃ e, osCreate fl s name = (.error e, s)) ∨
    (∃ parent c, name = .child parent c ∧ fl.create name = Option.none ∧
      lookup s parent = .ok true ∧ (∀ perm, s.nodes name ≠ some (.dir perm)) ∧
      osCreate fl s name =
        (.ok ((s.setNode name (.file [])).openHandle name).1,
          ((s.setNode name (.file [])).openHandle name).2)) := by
  cases hf : fl.create name with
  | some e => exact Or.inl ⟨_, by simp only [osCreate, hf]; rfl⟩
  | none =>
    cases name with
    | root => exact Or.inl ⟨_, by simp only [osCreate, hf]; rfl⟩
    | child parent c =>
      cases hl : resolve fl s parent with
      | error e => exact Or.inl ⟨_, by simp only [osCreate, hf, hl]; rfl⟩
      | ok d =>
        cases d with
        | false => exact Or.inl ⟨_, by simp only [osCreate, hf, hl]; rfl⟩
        | true =>
          have hlk := (resolve_ok_iff.mp hl).1
          cases ha : fl.access (.child parent c) with
          | some r => exact Or.inl ⟨_, by simp only [osCreate, hf, hl, ha]; rfl⟩
          | none =>
            cases hr : fl.read (.child parent c) with
            | some r => exact Or.inl ⟨_, by simp only [osCreate, hf, hl, ha, hr]; rfl⟩
            | none =>
              cases hn : s.nodes (.child parent c) with
              | none =>
                exact Or.inr ⟨parent, c, rfl, rfl, hlk, (fun _ h => by cases h),
                  by simp only [osCreate, hf, hl, ha, hr, hn]⟩
              | some n =>
                cases n with
                | dir perm =>
                  exact Or.inl ⟨_, by simp only [osCreate, hf, hl, ha, hr, hn]; rfl⟩
                | file d =>
                  exact Or.inr ⟨parent, c, rfl, rfl, hlk, (fun _ h => by cases h),
                    by simp only [osCreate, hf, hl, ha, hr, hn]⟩

/-- When `os.Create` succeeds, no component of the name was refused, nor a read of it. -/
theorem osCreate_ok_access {fl : Faults} {s : Disk} {name : Path} {f : File} {s2 : Disk}
    (h : osCreate fl s name = (.ok f, s2)) :
    unrefused fl name = true ∧ fl.read name = Option.none := by
  cases hf : fl.create name with
  | some e => simp [osCreate, hf] at h
  | none =>
    cases name with
    | root => simp [osCreate, hf] at h
    | child parent c =>
      cases hl : resolve fl s parent with
      | error e => simp [osCreate, hf, hl] at h
      | ok d =>
        cases d with
        | false => simp [osCreate, hf, hl] at h
        | true =>
          cases ha : fl.access (.child parent c) with
          | some r => simp [osCreate, hf, hl, ha] at h
          | none =>
            cases hr : fl.read (.child parent c) with
            | some r => simp [osCreate, hf, hl, ha, hr] at h
            | none => exact ⟨unrefused_child.mpr ⟨(resolve_ok_iff.mp hl).2, ha⟩, rfl⟩

/-- A write at the start of a longer file keeps the tail of the old content: only the
truncation by `os.Create` makes an overwrite leave nothing of the old content. -/
theorem overlay_keeps_tail : overlay hello [104, 105] = [104, 105, 108, 108, 111] := rfl

theorem overlay_nil (b : Bytes) : overlay [] b = b := by
  simp [overlay]

/-- Writing through the handle `os.Create` returned and closing it: the handle table is as
before the creation, and the file holds what was written. -/
theorem write_close_after_create (fl : Faults) (s1 : Disk) (name : Path) (data : Bytes) :
    (fileClose (fileWrite fl ((s1.setNode name (.file [])).openHandle name).2
        ((s1.setNode name (.file [])).openHandle name).1 data).2
        ((s1.setNode name (.file [])).openHandle name).1).2.handles = s1.handles ∧
    ∃ w, (fileClose (fileWrite fl ((s1.setNode name (.file [])).openHandle name).2
        ((s1.setNode name (.file [])).openHandle name).1 data).2
        ((s1.setNode name (.file [])).openHandle name).1).2.nodes =
          (s1.setNode name (.file w)).nodes ∧
      ((fl.write name = Option.none ∧ w = data ∧
        (fileWrite fl ((s1.setNode name (.file [])).openHandle name).2
          ((s1.setNode name (.file [])).openHandle name).1 data).1.2 = Option.none) ∨
       (∃ n e, fl.write name = some (n, e) ∧ w = data.take n ∧
        (fileWrite fl ((s1.setNode name (.file [])).openHandle name).2
          ((s1.setNode name (.file [])).openHandle name).1 data).1.2 =
            some ⟨"write", name, e⟩)) := by
  have hfresh := lowestFree_not_mem (s1.handles.map File.fd)
  have hfilter := filter_fresh s1.handles ⟨lowestFree (s1.handles.map File.fd), name⟩ hfresh
  cases hw : fl.write name with
  | none =>
    refine ⟨?_, data, ?_, Or.inl ⟨rfl, rfl, ?_⟩⟩
    · simp only [fileWrite, Disk.openHandle, Disk.setNode, fileClose, List.mem_cons, true_or,
        if_true, hw]
      exact hfilter
    · simp only [fileWrite, Disk.openHandle, Disk.setNode, fileClose, List.mem_cons, true_or,
        if_true, hw, overlay_nil]
      funext q
      by_cases h : q = name <;> simp [h]
    · simp only [fileWrite, Disk.openHandle, Disk.setNode, List.mem_cons, true_or, if_true, hw]
  | some ne =>
    obtain ⟨n, e⟩ := ne
    refine ⟨?_, data.take n, ?_, Or.inr ⟨n, e, rfl, rfl, ?_⟩⟩
    · simp only [fileWrite, Disk.openHandle, Disk.setNode, fileClose, List.mem_cons, true_or,
        if_true, hw]
      exact hfilter
    · simp only [fileWrite, Disk.openHandle, Disk.setNode, fileClose, List.mem_cons, true_or,
        if_true, hw, overlay_nil]
      funext q
      by_cases h : q = name <;> simp [h]
    · simp only [fileWrite, Disk.openHandle, Disk.setNode, List.mem_cons, true_or, if_true, hw]

/-- The three ways `WriteFile` can run: the directory step fails, the creation fails, or
the file is created and written through a handle that is closed again. -/
theorem WriteFile_cases (fl : Faults) (s : Disk) (name : Path) (data : Bytes) :
    (∃ err, (ensureDir fl s name).1 = some err ∧
      diskFS.WriteFile fl s name data = (some err, (ensureDir fl s name).2)) ∨
    ((ensureDir fl s name).1 = Option.none ∧
      ∃ err, osCreate fl (ensureDir fl s name).2 name = (.error err, (ensureDir fl s name).2) ∧
        diskFS.WriteFile fl s name data = (some err, (ensureDir fl s name).2)) ∨
    ((ensureDir fl s name).1 = Option.none ∧
      (∃ f s2, osCreate fl (ensureDir fl s name).2 name = (.ok f, s2)) ∧
      name ≠ .root ∧ fl.create name = Option.none ∧
      lookup (ensureDir fl s name).2 (filepathDir name) = .ok true ∧
      (∀ perm, (ensureDir fl s name).2.nodes name ≠ some (.dir perm)) ∧
      (diskFS.WriteFile fl s name data).2.handles = (ensureDir fl s name).2.handles ∧
      ∃ w, (diskFS.WriteFile fl s name data).2.nodes =
          ((ensureDir fl s name).2.setNode name (.file w)).nodes ∧
        ((fl.write name = Option.none ∧ w = data ∧
          (diskFS.WriteFile fl s name data).1 = Option.none) ∨
         (∃ n e, fl.write name = some (n, e) ∧ w = data.take n ∧
          (diskFS.WriteFile fl s name data).1 = some ⟨"write", name, e⟩))) := by
  rw [WriteFile_eq]
  cases he : ensureDir fl s name with
  | mk e1 s1 =>
    cases e1 with
    | some err => exact Or.inl ⟨err, rfl, rfl⟩
    | none =>
      simp only
      rcases osCreate_cases fl s1 name with ⟨e, hc⟩ | ⟨parent, c, heq, hf, hl, hn, hc⟩
      · rw [hc]
        exact Or.inr (Or.inl ⟨trivial, e, rfl, rfl⟩)
      · rw [hc]
        obtain ⟨h1, w, h2, h3⟩ := write_close_after_create fl s1 name data
        refine Or.inr (Or.inr ⟨trivial, ⟨_, _, rfl⟩, ?_, hf, ?_, hn, h1, w, h2, h3⟩)
        · rw [heq]
          exact fun h => by cases h
        · rw [heq]
          exact hl

theorem lookup_nodes_eq {s t : Disk} (h : t.nodes = s.nodes) (p : Path) : lookup t p = lookup s p :=
  lookup_congr p (fun q _ => by simp only [kindAt, h])

/-- The outcome of `os.ReadFile` in terms of the stored state and the refusals. -/
theorem osReadFile_fst (fl : Faults) (s : Disk) (name : Path) :
    (osReadFile fl s name).1 =
      match resolve fl s name with
      | .error e => ([], some ⟨"open", name, e⟩)
      | .ok b =>
        match fl.read name with
        | some r => ([], some ⟨"open", name, r.errno⟩)
        | Option.none =>
          match b with
          | true => ([], some ⟨"read", name, .EISDIR⟩)
          | false =>
            match s.nodes name with
            | some (.file d) => (d, Option.none)
            | _ => ([], some ⟨"read", name, .EBADF⟩) := by
  unfold osReadFile osOpen
  cases hl : resolve fl s name with
  | error e => rfl
  | ok d =>
    cases hr : fl.read name with
    | some r => rfl
    | none =>
      have hl2 : lookup (s.openHandle name).2 name = .ok d := by
        rw [← (resolve_ok_iff.mp hl).1]
        exact lookup_nodes_eq (s := s) (t := (s.openHandle name).2) rfl name
      simp only [fileReadAll, Disk.openHandle, List.mem_cons, true_or, if_true]
      simp only [Disk.openHandle] at hl2
      rw [hl2]
      cases d <;> rfl

/-- The call `os.ReadFile` leaves the state as it was: the handle it opens is closed again. -/
theorem osReadFile_snd (fl : Faults) (s : Disk) (name : Path) :
    (osReadFile fl s name).2 = s := by
  unfold osReadFile osOpen
  cases hl : resolve fl s name with
  | error e => rfl
  | ok d =>
    cases hr : fl.read name with
    | some r => rfl
    | none =>
      have h := close_openHandle s name
      simp only [fileClose, Disk.openHandle, List.mem_cons, true_or, if_true] at h ⊢
      cases s with
      | mk nodes handles =>
        simp only at h ⊢
        rw [h]

theorem ReadFile_of_file {fl : Faults} {s : Disk} {name : Path} {d : Bytes}
    (hl : lookup s name = .ok false) (hu : unrefused fl name = true)
    (hr : fl.read name = Option.none) (hn : s.nodes name = some (.file d)) :
    diskFS.ReadFile fl s name = ((d, Option.none), s) := by
  have h1 := osReadFile_fst fl s name
  have h2 := osReadFile_snd fl s name
  rw [resolve_ok_iff.mpr ⟨hl, hu⟩] at h1
  simp only [hr, hn] at h1
  exact Prod.ext h1 h2

theorem ReadFile_ok_iff {fl : Faults} {s : Disk} {name : Path} {d : Bytes} :
    (diskFS.ReadFile fl s name).1 = (d, Option.none) ↔
      lookup s name = .ok false ∧ unrefused fl name = true ∧ fl.read name = Option.none ∧
        s.nodes name = some (.file d) := by
  constructor
  · intro h
    have h1 := osReadFile_fst fl s name
    rw [show osReadFile fl s name = diskFS.ReadFile fl s name from rfl, h] at h1
    cases hl : resolve fl s name with
    | error e => simp [hl] at h1
    | ok b =>
      cases hr : fl.read name with
      | some r => simp [hl, hr] at h1
      | none =>
        cases b with
        | true => simp [hl, hr] at h1
        | false =>
          obtain ⟨hlk, hu⟩ := resolve_ok_iff.mp hl
          cases hn : s.nodes name with
          | none => simp [hl, hr, hn] at h1
          | some n =>
            cases n with
            | dir perm => simp [hl, hr, hn] at h1
            | file d2 =>
              simp only [hl, hr, hn, Prod.mk.injEq, and_true] at h1
              exact ⟨hlk, hu, rfl, by rw [h1]⟩
  · rintro ⟨hl, hu, hr, hn⟩
    rw [ReadFile_of_file hl hu hr hn]

theorem lookup_after_write {s1 t : Disk} {name : Path} {w : Bytes} (hne : name ≠ .root)
    (hl : lookup s1 (filepathDir name) = .ok true)
    (ht : t.nodes = (s1.setNode name (.file w)).nodes) :
    lookup t (filepathDir name) = .ok true ∧ lookup t name = .ok false ∧
      t.nodes name = some (.file w) := by
  cases name with
  | root => exact absurd rfl hne
  | child parent c =>
    have hn : t.nodes (.child parent c) = some (.file w) := by
      rw [ht]
      exact setNode_nodes_self _ _ _
    have hp : lookup t parent = .ok true := by
      rw [lookup_nodes_eq ht parent,
        lookup_setNode_off _ _ (child_ne_self parent c) (child_not_mem_ancestors parent c)]
      exact hl
    exact ⟨hp, lookup_child_of hp hn, hn⟩

/-- When `WriteFile` returns nil: the name is below the base directory, its parent leads to
a directory, the name leads to a regular file holding exactly the data, and the
environment of the call refuses no component of the name and no read of it. -/
theorem WriteFile_success {fl : Faults} {s : Disk} {name : Path} {data : Bytes}
    (h : (diskFS.WriteFile fl s name data).1 = Option.none) :
    name ≠ .root ∧
    lookup (diskFS.WriteFile fl s name data).2 (filepathDir name) = .ok true ∧
    lookup (diskFS.WriteFile fl s name data).2 name = .ok false ∧
    (diskFS.WriteFile fl s name data).2.nodes name = some (.file data) ∧
    unrefused fl name = true ∧ fl.read name = Option.none := by
  rcases WriteFile_cases fl s name data with ⟨err, _, hw⟩ | ⟨_, err, _, hw⟩ |
      ⟨_, ⟨f, s2, hc⟩, hne, _, hl, _, _, w, hnodes, hres⟩
  · rw [hw] at h
    cases h
  · rw [hw] at h
    cases h
  · rcases hres with ⟨_, hwd, _⟩ | ⟨n, e, _, _, herr⟩
    · subst hwd
      obtain ⟨h1, h2, h3⟩ := lookup_after_write hne hl hnodes
      obtain ⟨h4, h5⟩ := osCreate_ok_access hc
      exact ⟨hne, h1, h2, h3, h4, h5⟩
    · rw [herr] at h
      cases h

/-- After `WriteFile` returned nil, the name resolves to a file and its parent to a
directory in the environment of the call. -/
theorem WriteFile_success_resolve {fl : Faults} {s : Disk} {name : Path} {data : Bytes}
    (h : (diskFS.WriteFile fl s name data).1 = Option.none) :
    resolve fl (diskFS.WriteFile fl s name data).2 (filepathDir name) = .ok true ∧
    resolve fl (diskFS.WriteFile fl s name data).2 name = .ok false := by
  obtain ⟨hne, h1, h2, _, hu, _⟩ := WriteFile_success h
  refine ⟨resolve_ok_iff.mpr ⟨h1, ?_⟩, resolve_ok_iff.mpr ⟨h2, hu⟩⟩
  cases name with
  | root => rfl
  | child parent c => exact (unrefused_child.mp hu).1

theorem lookup_error_cases {s : Disk} {p : Path} {e : Errno} (h : lookup s p = .error e) :
    e = .ENOENT ∨ (e = .ENOTDIR ∧ ∃ q, q ∈ p.ancestors ∧ lookup s q = .ok false) := by
  induction p with
  | root => cases h
  | child parent c ih =>
    rw [lookup_child] at h
    cases hp : lookup s parent with
    | error e2 =>
      rw [hp] at h
      simp only [Except.error.injEq] at h
      subst h
      rcases ih hp with h1 | ⟨h1, q, hq, hq2⟩
      · exact Or.inl h1
      · refine Or.inr ⟨h1, q, ?_, hq2⟩
        simp only [Path.ancestors, List.mem_cons]
        exact Or.inr hq
    | ok d =>
      rw [hp] at h
      cases d with
      | false =>
        simp only [Except.error.injEq] at h
        exact Or.inr ⟨h.symm, parent, by simp [Path.ancestors], hp⟩
      | true =>
        cases hk : kindAt s (.child parent c) with
        | none =>
          simp only [hk, Except.error.injEq] at h
          exact Or.inl h.symm
        | some b => simp [hk] at h

theorem lookup_below_file {s : Disk} {p q : Path} (hq : q ∈ p.ancestors)
    (h : lookup s q = .ok false) : lookup s p = .error .ENOTDIR := by
  induction p with
  | root => simp [Path.ancestors] at hq
  | child parent c ih =>
    simp only [Path.ancestors, List.mem_cons] at hq
    rw [lookup_child]
    rcases hq with rfl | hq
    · rw [h]
    · rw [ih hq]

theorem IsFileExists_false_iff {fl : Faults} {s : Disk} {name : Path} :
    (diskFS.IsFileExists fl s name).1 = false ↔ resolve fl s name = .error .ENOENT := by
  rw [← isNotExist_stat_iff]
  simp [diskFS.IsFileExists]

theorem IsFileExists_true_iff {fl : Faults} {s : Disk} {name : Path} :
    (diskFS.IsFileExists fl s name).1 = true ↔ resolve fl s name ≠ .error .ENOENT := by
  rw [← not_iff_not, Bool.not_eq_true, IsFileExists_false_iff, not_not]

/-- What is there exists for `IsFileExists`, in every environment: a refusal is not the
not-exist error. -/
theorem IsFileExists_of_lookup_ok (fl : Faults) {s : Disk} {name : Path} {b : Bool}
    (h : lookup s name = .ok b) : (diskFS.IsFileExists fl s name).1 = true := by
  rw [IsFileExists_true_iff]
  rcases resolve_of_lookup_ok fl h with h1 | ⟨r, h1⟩
  · rw [h1]
    exact fun h => by cases h
  · rw [h1]
    intro h2
    simp only [Except.error.injEq] at h2
    exact Refusal.errno_ne r h2

theorem lookup_enoent_of_unblocked {s : Disk} {name : Path} (h1 : ∃ e, lookup s name = .error e)
    (h2 : ∀ q, q ∈ name.ancestors → lookup s q ≠ .ok false) :
    lookup s name = .error .ENOENT := by
  obtain ⟨e, he⟩ := h1
  rcases lookup_error_cases he with h | ⟨_, q, hq, hq2⟩
  · rw [he, h]
  · exact absurd hq2 (h2 q hq)

/-- Below a regular file the resolution fails with `ENOTDIR`, or with a refusal before it
gets there. -/
theorem resolve_below_file (fl : Faults) {s : Disk} {p q : Path} (hq : q ∈ p.ancestors)
    (h : lookup s q = .ok false) :
    resolve fl s p = .error .ENOTDIR ∨ ∃ r : Refusal, resolve fl s p = .error r.errno := by
  induction p with
  | root => simp [Path.ancestors] at hq
  | child parent c ih =>
    simp only [Path.ancestors, List.mem_cons] at hq
    have hpar : resolve fl s parent = .ok false ∨ resolve fl s parent = .error .ENOTDIR ∨
        ∃ r : Refusal, resolve fl s parent = .error r.errno := by
      rcases hq with rfl | hq
      · rcases resolve_of_lookup_ok fl h with h1 | h1
        · exact Or.inl h1
        · exact Or.inr (Or.inr h1)
      · exact Or.inr (ih hq)
    rcases hpar with h1 | h1 | ⟨r, h1⟩
    · exact Or.inl (by simp only [resolve, h1])
    · exact Or.inl (by simp only [resolve, h1])
    · exact Or.inr ⟨r, by simp only [resolve, h1]⟩

theorem ReadFile_of_error {fl : Faults} {s : Disk} {name : Path} {e : Errno}
    (h : resolve fl s name = .error e) :
    diskFS.ReadFile fl s name = (([], some ⟨"open", name, e⟩), s) := by
  have h1 := osReadFile_fst fl s name
  rw [h] at h1
  exact Prod.ext h1 (osReadFile_snd fl s name)

theorem ReadFile_of_dir {fl : Faults} {s : Disk} {name : Path}
    (h : resolve fl s name = .ok true) (hr : fl.read name = Option.none) :
    diskFS.ReadFile fl s name = (([], some ⟨"read", name, .EISDIR⟩), s) := by
  have h1 := osReadFile_fst fl s name
  rw [h] at h1
  simp only [hr] at h1
  exact Prod.ext h1 (osReadFile_snd fl s name)

theorem ReadFile_of_refused_read {fl : Faults} {s : Disk} {name : Path} {b : Bool}
    {r : Refusal} (h : resolve fl s name = .ok b) (hr : fl.read name = some r) :
    diskFS.ReadFile fl s name = (([], some ⟨"open", name, r.errno⟩), s) := by
  have h1 := osReadFile_fst fl s name
  rw [h] at h1
  simp only [hr] at h1
  exact Prod.ext h1 (osReadFile_snd fl s name)

theorem lookup_ancestors {s : Disk} {p : Path} {b : Bool} (h : lookup s p = .ok b) :
    ∀ q, q ∈ p.ancestors → lookup s q = .ok true := by
  induction p generalizing b with
  | root => intro q hq; simp [Path.ancestors] at hq
  | child parent c ih =>
    intro q hq
    obtain ⟨hp, _⟩ := lookup_child_ok h
    simp only [Path.ancestors, List.mem_cons] at hq
    rcases hq with rfl | hq
    · exact hp
    · exact ih hp q hq

/-- What `WriteFile` leaves alone: the open handles, every entry that is neither `name` nor
an ancestor of it, and the ancestors that were there; a missing ancestor may have become a
directory with mode `0o755`. -/
theorem WriteFile_frame (fl : Faults) (s : Disk) (name : Path) (data : Bytes) :
    (diskFS.WriteFile fl s name data).2.handles = s.handles ∧
    (∀ q, q ≠ name → q ∉ name.ancestors →
      (diskFS.WriteFile fl s name data).2.nodes q = s.nodes q) ∧
    (∀ q, q ≠ name → ((diskFS.WriteFile fl s name data).2.nodes q = s.nodes q ∨
      (s.nodes q = Option.none ∧
        (diskFS.WriteFile fl s name data).2.nodes q = some (.dir 0o755)))) ∧
    ((diskFS.WriteFile fl s name data).2.nodes name = s.nodes name ∨
      (s.nodes name = Option.none ∧
        (diskFS.WriteFile fl s name data).2.nodes name = some (.dir 0o755)) ∨
      ((∀ perm, s.nodes name ≠ some (.dir perm)) ∧
        ∃ w, (diskFS.WriteFile fl s name data).2.nodes name = some (.file w))) := by
  obtain ⟨e1, e2, e3⟩ := ensureDir_effect fl s name
  rcases WriteFile_cases fl s name data with ⟨err, _, hw⟩ | ⟨_, err, _, hw⟩ |
      ⟨_, _, hne, _, hl, hnd, hh, w, hnodes, _⟩
  · rw [hw]
    refine ⟨e1, fun q _ hq => e3 q hq, fun q _ => e2 q, ?_⟩
    rcases e2 name with h | h
    · exact Or.inl h
    · exact Or.inr (Or.inl h)
  · rw [hw]
    refine ⟨e1, fun q _ hq => e3 q hq, fun q _ => e2 q, ?_⟩
    rcases e2 name with h | h
    · exact Or.inl h
    · exact Or.inr (Or.inl h)
  · refine ⟨hh.trans e1, fun q hq1 hq2 => ?_, fun q hq => ?_, ?_⟩
    · rw [hnodes, setNode_nodes_ne _ _ hq1]
      exact e3 q hq2
    · rw [hnodes, setNode_nodes_ne _ _ hq]
      exact e2 q
    · refine Or.inr (Or.inr ⟨fun perm hp => ?_, w, ?_⟩)
      · rcases e2 name with h | ⟨_, h⟩
        · exact hnd perm (h.trans hp)
        · exact hnd _ h
      · rw [hnodes]
        exact setNode_nodes_self _ _ _

/-- A path other than `name` that resolved before `WriteFile(name, ...)` resolves to the
same kind, with the same entry, after it. -/
theorem WriteFile_lookup_other (fl : Faults) (s : Disk) (name : Path) (data : Bytes)
    (p : Path) (b : Bool) (hb : b = true ∨ p ≠ name) (h : lookup s p = .ok b) :
    lookup (diskFS.WriteFile fl s name data).2 p = .ok b ∧
      (p ≠ .root → (diskFS.WriteFile fl s name data).2.nodes p = s.nodes p) := by
  obtain ⟨_, _, f3, f4⟩ := WriteFile_frame fl s name data
  induction p generalizing b with
  | root => exact ⟨h, fun hne => absurd rfl hne⟩
  | child parent c ih =>
    obtain ⟨hp, n, hn, hk⟩ := lookup_child_ok h
    have hpar := (ih true (Or.inl rfl) hp).1
    have hsame : (diskFS.WriteFile fl s name data).2.nodes (.child parent c) =
        s.nodes (.child parent c) := by
      by_cases hq : Path.child parent c = name
      · rw [hq] at hn ⊢
        rcases f4 with h1 | ⟨h1, _⟩ | ⟨h1, _⟩
        · exact h1
        · rw [hn] at h1
          cases h1
        · rcases hb with hb | hb
          · subst hb
            cases n with
            | file d => cases hk
            | dir perm => exact absurd hn (h1 perm)
          · exact absurd hq hb
      · rcases f3 _ hq with h1 | ⟨h1, _⟩
        · exact h1
        · rw [hn] at h1
          cases h1
    refine ⟨?_, fun _ => hsame⟩
    rw [lookup_child_of hpar (hsame.trans hn), hk]

theorem wellFormed_empty : WellFormed Disk.empty := fun _ _ h => absurd rfl h

/-- Without injected failures, on a well-formed state, `os.MkdirAll` succeeds for a path
that is a directory or whose lookup stops at a missing component. -/
theorem osMkdirAll_noFaults (perm : Nat) (s : Disk) (hwf : WellFormed s) (p : Path)
    (h : lookup s p = .ok true ∨ lookup s p = .error .ENOENT) :
    (osMkdirAll Faults.none s p perm).1 = Option.none := by
  induction p with
  | root => rfl
  | child parent c ih =>
    rcases h with h | h
    · rw [osMkdirAll_of_dir _ perm ((resolve_none s _).trans h)]
    · rw [osMkdirAll_of_error _ perm ((resolve_none s _).trans h)]
      have hpar : lookup s parent = .ok true ∨ lookup s parent = .error .ENOENT := by
        rw [lookup_child] at h
        cases hp : lookup s parent with
        | error e =>
          rw [hp] at h
          exact Or.inr h
        | ok d =>
          cases d with
          | true => exact Or.inl rfl
          | false =>
            rw [hp] at h
            cases h
      have hnone : s.nodes (.child parent c) = Option.none := by
        rcases hpar with hp | hp
        · obtain hn | ⟨n, hn⟩ := Option.eq_none_or_eq_some (s.nodes (.child parent c))
          · exact hn
          · rw [lookup_child_of hp hn] at h
            cases h
        · by_contra hn
          rw [hwf parent c hn] at hp
          cases hp
      have ih1 := ih hpar
      obtain ⟨_, _, e3, e4⟩ := osMkdirAll_effect Faults.none perm parent s
      revert ih1 e3 e4
      cases osMkdirAll Faults.none s parent perm with
      | mk e1 s1 =>
        intro ih1 e3 e4
        simp only at ih1 e3 e4
        subst ih1
        have hn1 : s1.nodes (.child parent c) = Option.none :=
          (e3 _ (child_ne_self parent c) (child_not_mem_ancestors parent c)).trans hnone
        have hm : osMkdir Faults.none s1 (.child parent c) perm =
            (Option.none, s1.setNode (.child parent c) (.dir perm)) := by
          have ha : Faults.none.mkdir (.child parent c) = Option.none := rfl
          have hb : Faults.none.access (.child parent c) = Option.none := rfl
          simp only [osMkdir, ha, hb, e4 rfl, hn1]
        simp only [hm]

theorem osCreate_ok_of (fl : Faults) {s : Disk} {name : Path} (hne : name ≠ .root)
    (hf : fl.create name = Option.none) (hl : resolve fl s (filepathDir name) = .ok true)
    (ha : fl.access name = Option.none) (hr : fl.read name = Option.none)
    (hn : ∀ perm, s.nodes name ≠ some (.dir perm)) :
    ∃ f s2, osCreate fl s name = (.ok f, s2) := by
  rcases osCreate_cases fl s name with ⟨e, hc⟩ | ⟨_, _, _, _, _, _, hc⟩
  · exfalso
    cases name with
    | root => exact hne rfl
    | child parent c =>
      simp only [filepathDir] at hl
      cases hnode : s.nodes (.child parent c) with
      | none =>
        simp only [osCreate, hf, hl, ha, hr, hnode, Disk.openHandle, Prod.mk.injEq] at hc
        exact absurd hc.1 (by simp)
      | some n =>
        cases n with
        | dir perm => exact hn perm hnode
        | file d =>
          simp only [osCreate, hf, hl, ha, hr, hnode, Disk.openHandle, Prod.mk.injEq] at hc
          exact absurd hc.1 (by simp)
  · exact ⟨_, _, hc⟩

theorem lookup_mono {s t : Disk} (h : ∀ q, s.nodes q ≠ Option.none → kindAt t q = kindAt s q)
    {p : Path} {b : Bool} (hp : lookup s p = .ok b) : lookup t p = .ok b := by
  induction p generalizing b with
  | root => exact hp
  | child parent c ih =>
    obtain ⟨hpar, n, hn, hb⟩ := lookup_child_ok hp
    have hk := h (.child parent c) (by rw [hn]; exact fun h => by cases h)
    rw [lookup_child, ih hpar, hk]
    simp only [kindAt, hn, Option.map, hb]

theorem wellFormed_setNode {s : Disk} (hwf : WellFormed s) {parent : Path} {c : String} {n : Node}
    (hp : lookup s parent = .ok true)
    (hk : ∀ m, s.nodes (.child parent c) = some m → n.isDir = m.isDir) :
    WellFormed (s.setNode (.child parent c) n) := by
  have hmono : ∀ q, s.nodes q ≠ Option.none →
      kindAt (s.setNode (.child parent c) n) q = kindAt s q := by
    intro q hq
    by_cases h : q = .child parent c
    · subst h
      obtain hm | ⟨m, hm⟩ := Option.eq_none_or_eq_some (s.nodes (.child parent c))
      · exact absurd hm hq
      · simp only [kindAt, setNode_nodes_self, hm, Option.map, hk m hm]
    · simp only [kindAt, setNode_nodes_ne s n h]
  intro p2 c2 hne
  by_cases h : Path.child p2 c2 = .child parent c
  · cases h
    exact lookup_mono hmono hp
  · rw [setNode_nodes_ne s n h] at hne
    exact lookup_mono hmono (hwf p2 c2 hne)

theorem osMkdir_wellFormed (fl : Faults) (perm : Nat) (p : Path) (s : Disk) (hwf : WellFormed s) :
    WellFormed (osMkdir fl s p perm).2 := by
  rcases osMkdir_cases fl s p perm with ⟨e, hm⟩ | ⟨parent, c, heq, _, hl, _, hn, hm⟩
  · rw [hm]
    exact hwf
  · rw [hm]
    subst heq
    exact wellFormed_setNode hwf hl (fun m h => by rw [hn] at h; cases h)

theorem osMkdirAll_wellFormed (fl : Faults) (perm : Nat) (p : Path) (s : Disk)
    (hwf : WellFormed s) : WellFormed (osMkdirAll fl s p perm).2 := by
  induction p with
  | root =>
    rw [osMkdirAll_of_dir fl perm (rfl : resolve fl s .root = .ok true)]
    exact hwf
  | child parent c ih =>
    cases hst : resolve fl s (.child parent c) with
    | ok d =>
      cases d with
      | true =>
        rw [osMkdirAll_of_dir fl perm hst]
        exact hwf
      | false =>
        rw [osMkdirAll_of_file fl perm hst]
        exact hwf
    | error e0 =>
      rw [osMkdirAll_of_error fl perm hst]
      revert ih
      cases osMkdirAll fl s parent perm with
      | mk e1 s1 =>
        intro ih
        simp only at ih
        cases e1 with
        | some err => exact ih
        | none =>
          simp only
          have hm := osMkdir_wellFormed fl perm (.child parent c) s1 ih
          revert hm
          cases osMkdir fl s1 (.child parent c) perm with
          | mk e2 s2 =>
            intro hm
            simp only at hm
            cases e2 with
            | none => exact hm
            | some err =>
              simp only
              cases resolve fl s2 (.child parent c) with
              | error _ => exact hm
              | ok d => cases d <;> exact hm

theorem wellFormed_of_nodes_eq {s t : Disk} (h : t.nodes = s.nodes) (hwf : WellFormed s) :
    WellFormed t := by
  intro p c hne
  rw [h] at hne
  rw [lookup_nodes_eq h p]
  exact hwf p c hne

/-- The call `WriteFile` keeps the state well-formed, so every state reached from the empty
file system by calls of `WriteFile` is well-formed. -/
theorem WriteFile_wellFormed (fl : Faults) (s : Disk) (name : Path) (data : Bytes)
    (hwf : WellFormed s) : WellFormed (diskFS.WriteFile fl s name data).2 := by
  have hens : WellFormed (ensureDir fl s name).2 := by
    unfold ensureDir
    split
    · exact osMkdirAll_wellFormed fl _ _ s hwf
    · exact hwf
  rcases WriteFile_cases fl s name data with ⟨err, _, hw⟩ | ⟨_, err, _, hw⟩ |
      ⟨_, _, hne, _, hl, hnd, _, w, hnodes, _⟩
  · rw [hw]
    exact hens
  · rw [hw]
    exact hens
  · refine wellFormed_of_nodes_eq hnodes ?_
    cases name with
    | root => exact absurd rfl hne
    | child parent c =>
      refine wellFormed_setNode hens hl (fun m hm => ?_)
      cases m with
      | file d => rfl
      | dir perm => exact absurd hm (hnd perm)

/-- When `os.Create` succeeds, its handle is new and is entered in the table. -/
theorem osCreate_handles {fl : Faults} {s : Disk} {name : Path} {f : File} {s2 : Disk}
    (h : osCreate fl s name = (.ok f, s2)) : s2.handles = f :: s.handles ∧ f ∉ s.handles := by
  rcases osCreate_cases fl s name with ⟨e, hc⟩ | ⟨_, _, _, _, _, _, hc⟩
  · rw [hc] at h
    cases (Prod.mk.inj h).1
  · rw [hc] at h
    obtain ⟨h1, h2⟩ := Prod.mk.inj h
    simp only [Except.ok.injEq] at h1
    subst h1 h2
    refine ⟨rfl, fun hmem => ?_⟩
    exact lowestFree_not_mem (s.handles.map File.fd) (List.mem_map_of_mem File.fd hmem)

/-- When `os.Create` succeeds, the file is empty and nothing else stored has changed. -/
theorem osCreate_truncates {fl : Faults} {s : Disk} {name : Path} {f : File} {s2 : Disk}
    (h : osCreate fl s name = (.ok f, s2)) :
    s2.nodes name = some (.file []) ∧ ∀ q, q ≠ name → s2.nodes q = s.nodes q := by
  rcases osCreate_cases fl s name with ⟨e, hc⟩ | ⟨_, _, _, _, _, _, hc⟩
  · rw [hc] at h
    cases (Prod.mk.inj h).1
  · rw [hc] at h
    have h2 := (Prod.mk.inj h).2
    subst h2
    exact ⟨setNode_nodes_self _ _ _, fun q hq => setNode_nodes_ne _ _ hq⟩

/-! ## The claims -/

/-- C1: if `WriteFile(name, data)` returns nil, then `ReadFile(name)` right after
returns a nil error and exactly `data` (also when `data` is empty): in the environment of
the write, and in every environment that refuses no component of `name` and no read of
it. -/
theorem C1_write_then_read (fl : Faults) (s : Disk) (name : Path) (data : Bytes)
    (h : (diskFS.WriteFile fl s name data).1 = Option.none) :
    diskFS.ReadFile fl (diskFS.WriteFile fl s name data).2 name =
      ((data, Option.none), (diskFS.WriteFile fl s name data).2) ∧
    ∀ fr, unrefused fr name = true → fr.read name = Option.none →
      diskFS.ReadFile fr (diskFS.WriteFile fl s name data).2 name =
        ((data, Option.none), (diskFS.WriteFile fl s name data).2) := by
  obtain ⟨_, _, hl, hn, hu, hr⟩ := WriteFile_success h
  exact ⟨ReadFile_of_file hl hu hr hn, fun fr hu2 hr2 => ReadFile_of_file hl hu2 hr2 hn⟩

/-- C1 at concrete inputs: `hello` written to `a/b/c.txt` on the empty disk is read back;
so is `hi` written over the `hello` that the file `a` holds, also by a reader in another
environment; and so is the empty slice. -/
theorem C1_write_then_read_witness :
    ((diskFS.WriteFile Faults.none Disk.empty abcTxt hello).1 = Option.none ∧
      (diskFS.ReadFile Faults.none
        (diskFS.WriteFile Faults.none Disk.empty abcTxt hello).2 abcTxt).1 =
        ([104, 101, 108, 108, 111], Option.none)) ∧
    ((diskFS.WriteFile fullAfterTwo fileAtA (Path.ofList ["a"]) [104, 105]).1 = Option.none ∧
      (diskFS.ReadFile fullAfterTwo
        (diskFS.WriteFile fullAfterTwo fileAtA (Path.ofList ["a"]) [104, 105]).2
        (Path.ofList ["a"])).1 = ([104, 105], Option.none) ∧
      (diskFS.ReadFile denyMkdirAB
        (diskFS.WriteFile fullAfterTwo fileAtA (Path.ofList ["a"]) [104, 105]).2
        (Path.ofList ["a"])).1 = ([104, 105], Option.none)) ∧
    ((diskFS.WriteFile Faults.none Disk.empty abcTxt []).1 = Option.none ∧
      (diskFS.ReadFile Faults.none
        (diskFS.WriteFile Faults.none Disk.empty abcTxt []).2 abcTxt).1 =
        ([], Option.none)) :=
  ⟨⟨by decide,
      congrArg Prod.fst (C1_write_then_read Faults.none Disk.empty abcTxt hello (by decide)).1⟩,
    ⟨by decide,
      congrArg Prod.fst
        (C1_write_then_read fullAfterTwo fileAtA (Path.ofList ["a"]) [104, 105]
          (by decide)).1,
      congrArg Prod.fst
        ((C1_write_then_read fullAfterTwo fileAtA (Path.ofList ["a"]) [104, 105]
          (by decide)).2 denyMkdirAB (by decide) (by decide))⟩,
    ⟨by decide,
      congrArg Prod.fst (C1_write_then_read Faults.none Disk.empty abcTxt [] (by decide)).1⟩⟩

/-- C2, as stated, fails: after `hello` was written to `a`, which is then a regular file,
the stat of `a/b` fails with `ENOTDIR`, which is not a not-exist error, and `IsFileExists`
returns true for `a/b`. Likewise, where the lookup of `a` is refused for lack of
permission, the stat of `a` fails with `EACCES` and `IsFileExists` returns true for `a`,
on the empty disk. -/
theorem C2_counterexample :
    (fileAtA.nodes (Path.ofList ["a"]) = some (.file hello) ∧
      osStat Faults.none fileAtA underA = .error ⟨"stat", underA, .ENOTDIR⟩ ∧
      IsNotExist (some ⟨"stat", underA, .ENOTDIR⟩) = false ∧
      (diskFS.IsFileExists Faults.none fileAtA underA).1 = true) ∧
    (osStat denySearchA Disk.empty (Path.ofList ["a"]) =
        .error ⟨"stat", Path.ofList ["a"], .EACCES⟩ ∧
      IsNotExist (some ⟨"stat", Path.ofList ["a"], .EACCES⟩) = false ∧
      (diskFS.IsFileExists denySearchA Disk.empty (Path.ofList ["a"])).1 = true) :=
  ⟨⟨rfl, rfl, rfl, rfl⟩, ⟨rfl, rfl, rfl⟩⟩

/-- C2, amended: `IsFileExists(name)` returns false exactly when the stat of `name` fails
with a not-exist error; when the stat fails with any other error it returns true, as it
does when the stat succeeds. -/
theorem C2_exists_false_iff_not_exist (fl : Faults) (s : Disk) (name : Path) :
    ((diskFS.IsFileExists fl s name).1 = false ↔
      ∃ e, osStat fl s name = .error e ∧ IsNotExist (some e) = true) ∧
    (∀ e, osStat fl s name = .error e → IsNotExist (some e) = false →
      (diskFS.IsFileExists fl s name).1 = true) ∧
    (∀ fi, osStat fl s name = .ok fi → (diskFS.IsFileExists fl s name).1 = true) := by
  refine ⟨?_, ?_, ?_⟩
  · unfold diskFS.IsFileExists
    cases h : osStat fl s name with
    | ok fi => simp [errOf, IsNotExist]
    | error e => simp [errOf]
  · intro e h1 h2
    simp only [diskFS.IsFileExists, h1, errOf, h2, Bool.not_false]
  · intro fi h1
    simp only [diskFS.IsFileExists, h1, errOf, IsNotExist, Bool.not_false]

/-- C2 (amended) at concrete inputs: the stat of `a/b` below the regular file `a` fails with
`ENOTDIR`, the stat of `a` where its lookup is refused fails with `EACCES`, and
`IsFileExists` returns true for both. -/
theorem C2_exists_false_iff_not_exist_witness :
    (osStat Faults.none fileAtA underA = .error ⟨"stat", underA, .ENOTDIR⟩ ∧
      IsNotExist (some ⟨"stat", underA, .ENOTDIR⟩) = false ∧
      (diskFS.IsFileExists Faults.none fileAtA underA).1 = true) ∧
    (osStat denySearchA Disk.empty (Path.ofList ["a"]) =
        .error ⟨"stat", Path.ofList ["a"], .EACCES⟩ ∧
      IsNotExist (some ⟨"stat", Path.ofList ["a"], .EACCES⟩) = false ∧
      (diskFS.IsFileExists denySearchA Disk.empty (Path.ofList ["a"])).1 = true) :=
  ⟨⟨rfl, rfl,
      (C2_exists_false_iff_not_exist Faults.none fileAtA underA).2.1
        ⟨"stat", underA, .ENOTDIR⟩ rfl rfl⟩,
    ⟨rfl, rfl,
      (C2_exists_false_iff_not_exist denySearchA Disk.empty (Path.ofList ["a"])).2.1
        ⟨"stat", Path.ofList ["a"], .EACCES⟩ rfl rfl⟩⟩

/-- C3, as stated, fails: after `hello` was written to `a`, which is then a regular file,
nothing is present at `a/b` (nothing is stored there, its stat fails, and it was not
written), yet `IsFileExists` returns true for `a/b`. Likewise nothing is present at `a`
on the empty disk, yet `IsFileExists` returns true for `a` where the lookup of `a` is
refused for lack of permission. -/
theorem C3_counterexample :
    (fileAtA.nodes (Path.ofList ["a"]) = some (.file hello) ∧
      fileAtA.nodes underA = Option.none ∧
      osStat Faults.none fileAtA underA = .error ⟨"stat", underA, .ENOTDIR⟩ ∧
      (diskFS.IsFileExists Faults.none fileAtA underA).1 = true) ∧
    (Disk.empty.nodes (Path.ofList ["a"]) = Option.none ∧
      osStat denySearchA Disk.empty (Path.ofList ["a"]) =
        .error ⟨"stat", Path.ofList ["a"], .EACCES⟩ ∧
      (diskFS.IsFileExists denySearchA Disk.empty (Path.ofList ["a"])).1 = true) :=
  ⟨⟨rfl, rfl, rfl, rfl⟩, ⟨rfl, rfl, rfl⟩⟩

/-- C3, amended: `IsFileExists(name)` returns false exactly when the stat of `name` reports
not-exist. At a path at which nothing is present it does so, and `IsFileExists` returns
false, when no ancestor of `name` is a regular file and the operating system refuses no
component of `name`; when an ancestor is a regular file (`ENOTDIR`), or the lookup of a
component that is reached is refused (permission denied, name too long), it returns true.
After `WriteFile(name, data)` returns nil, `IsFileExists(name)` returns true, in every
environment. -/
theorem C3_exists_before_and_after_write (fl : Faults) (s : Disk) (name : Path) (data : Bytes) :
    ((diskFS.IsFileExists fl s name).1 = false ↔
      ∃ e, osStat fl s name = .error e ∧ IsNotExist (some e) = true) ∧
    ((∃ e, lookup s name = .error e) →
      (∀ q, q ∈ name.ancestors → lookup s q ≠ .ok false) → unrefused fl name = true →
      (diskFS.IsFileExists fl s name).1 = false) ∧
    ((∃ q, q ∈ name.ancestors ∧ lookup s q = .ok false) →
      (diskFS.IsFileExists fl s name).1 = true) ∧
    (∀ parent c r, (Path.child parent c = name ∨ Path.child parent c ∈ name.ancestors) →
      resolve fl s parent = .ok true → fl.access (.child parent c) = some r →
      (diskFS.IsFileExists fl s name).1 = true) ∧
    ((diskFS.WriteFile fl s name data).1 = Option.none →
      ∀ fr, (diskFS.IsFileExists fr (diskFS.WriteFile fl s name data).2 name).1 = true) := by
  refine ⟨?_, fun h1 h2 hu => ?_, fun h => ?_, fun parent c r hq hp hr => ?_,
    fun h fr => ?_⟩
  · unfold diskFS.IsFileExists
    cases h : osStat fl s name with
    | ok fi => simp [errOf, IsNotExist]
    | error e => simp [errOf]
  · rw [IsFileExists_false_iff, resolve_of_unrefused s hu]
    exact lookup_enoent_of_unblocked h1 h2
  · obtain ⟨q, hq, hq2⟩ := h
    rw [IsFileExists_true_iff]
    rcases resolve_below_file fl hq hq2 with h1 | ⟨r, h1⟩
    · rw [h1]
      exact fun h => by cases h
    · rw [h1]
      intro h
      simp only [Except.error.injEq] at h
      exact Refusal.errno_ne r h
  · rw [IsFileExists_true_iff, resolve_refused hq hp hr]
    intro h
    simp only [Except.error.injEq] at h
    exact Refusal.errno_ne r h
  · obtain ⟨_, _, hl, _⟩ := WriteFile_success h
    exact IsFileExists_of_lookup_ok fr hl

/-- C3 (amended) at concrete inputs: on the empty disk `IsFileExists` is false for
`a/b/c.txt` where nothing is refused and true where the lookup of `a` is refused; after
`hello` was written to `a/b/c.txt` it is true, also where the lookup of `a` is refused. -/
theorem C3_exists_before_and_after_write_witness :
    ((∃ e, lookup Disk.empty abcTxt = .error e) ∧
      (∀ q, q ∈ abcTxt.ancestors → lookup Disk.empty q ≠ .ok false) ∧
      unrefused Faults.none abcTxt = true ∧
      (diskFS.IsFileExists Faults.none Disk.empty abcTxt).1 = false) ∧
    (Path.child .root "a" ∈ abcTxt.ancestors ∧
      denySearchA.access (.child .root "a") = some .EACCES ∧
      (diskFS.IsFileExists denySearchA Disk.empty abcTxt).1 = true) ∧
    ((diskFS.WriteFile Faults.none Disk.empty abcTxt hello).1 = Option.none ∧
      (diskFS.IsFileExists Faults.none
        (diskFS.WriteFile Faults.none Disk.empty abcTxt hello).2 abcTxt).1 = true ∧
      (diskFS.IsFileExists denySearchA
        (diskFS.WriteFile Faults.none Disk.empty abcTxt hello).2 abcTxt).1 = true) :=
  ⟨⟨⟨.ENOENT, rfl⟩, by decide, by decide,
      (C3_exists_before_and_after_write Faults.none Disk.empty abcTxt hello).2.1
        ⟨.ENOENT, rfl⟩ (by decide) (by decide)⟩,
    ⟨by decide, rfl,
      (C3_exists_before_and_after_write denySearchA Disk.empty abcTxt hello).2.2.2.1
        .root "a" .EACCES (Or.inr (by decide)) rfl rfl⟩,
    ⟨by decide,
      (C3_exists_before_and_after_write Faults.none Disk.empty abcTxt hello).2.2.2.2
        (by decide) Faults.none,
      (C3_exists_before_and_after_write Faults.none Disk.empty abcTxt hello).2.2.2.2
        (by decide) denySearchA⟩⟩

/-- C4: on a well-formed state, when the lookup of the parent of `name` stops at a missing
component and the environment injects no failure, `WriteFile(name, data)` returns nil,
every ancestor of `name` is a directory afterwards, and each one that was not a directory
before has mode `0o755`. On the empty file system, writing `hello` to `a/b/c.txt` creates
the directories `a` and `a/b`, after which `IsFileExists` is true for `a/b/c.txt` and
`ReadFile` returns `hello`. -/
theorem C4_creates_missing_parents :
    (∀ (s : Disk) (name : Path) (data : Bytes), WellFormed s →
      lookup s (filepathDir name) = .error .ENOENT →
        (diskFS.WriteFile Faults.none s name data).1 = Option.none ∧
        (∀ q, q ∈ name.ancestors →
          lookup (diskFS.WriteFile Faults.none s name data).2 q = .ok true) ∧
        (∀ q, q ∈ name.ancestors → lookup s q ≠ .ok true →
          (diskFS.WriteFile Faults.none s name data).2.nodes q = some (.dir 0o755))) ∧
    ((diskFS.WriteFile Faults.none Disk.empty abcTxt hello).1 = Option.none ∧
      Disk.empty.nodes (Path.ofList ["a"]) = Option.none ∧
      Disk.empty.nodes underA = Option.none ∧
      (diskFS.WriteFile Faults.none Disk.empty abcTxt hello).2.nodes (Path.ofList ["a"]) =
        some (.dir 0o755) ∧
      (diskFS.WriteFile Faults.none Disk.empty abcTxt hello).2.nodes underA = some (.dir 0o755) ∧
      (diskFS.IsFileExists Faults.none
        (diskFS.WriteFile Faults.none Disk.empty abcTxt hello).2 abcTxt).1 = true ∧
      (diskFS.ReadFile Faults.none
        (diskFS.WriteFile Faults.none Disk.empty abcTxt hello).2 abcTxt).1 =
        (hello, Option.none)) := by
  refine ⟨fun s name data hwf hmiss => ?_, by decide⟩
  have hne : name ≠ .root := fun h => by
    rw [h] at hmiss
    cases hmiss
  obtain ⟨parent, c, rfl⟩ : ∃ parent c, name = .child parent c := by
    cases name with
    | root => exact absurd rfl hne
    | child parent c => exact ⟨parent, c, rfl⟩
  simp only [filepathDir] at hmiss
  have hens : ensureDir Faults.none s (.child parent c) =
      osMkdirAll Faults.none s parent 0o755 := by
    have h : IsNotExist (errOf (osStat Faults.none s (filepathDir (.child parent c)))) =
        true :=
      isNotExist_stat_iff.mpr ((resolve_none s _).trans hmiss)
    rw [ensureDir, if_pos h]
    rfl
  have hmk := osMkdirAll_noFaults 0o755 s hwf parent (Or.inr hmiss)
  obtain ⟨_, _, m3, m4⟩ := osMkdirAll_effect Faults.none 0o755 parent s
  have hnone : s.nodes (.child parent c) = Option.none := by
    by_contra hn
    rw [hwf parent c hn] at hmiss
    cases hmiss
  have hres : (diskFS.WriteFile Faults.none s (.child parent c) data).1 = Option.none := by
    rcases WriteFile_cases Faults.none s (.child parent c) data with ⟨err, he, _⟩ |
        ⟨_, err, hc, _⟩ | ⟨_, _, _, _, _, _, _, w, _, hw⟩
    · rw [hens, hmk] at he
      cases he
    · exfalso
      rw [hens] at hc
      have hn1 : ∀ perm, (osMkdirAll Faults.none s parent 0o755).2.nodes (.child parent c) ≠
          some (.dir perm) := by
        intro perm
        rw [m3 _ (child_ne_self parent c) (child_not_mem_ancestors parent c), hnone]
        exact fun h => by cases h
      obtain ⟨f, s2, hok⟩ := osCreate_ok_of Faults.none hne rfl (m4 hmk) rfl rfl hn1
      rw [hok] at hc
      cases (Prod.mk.inj hc).1
    · rcases hw with ⟨_, _, h⟩ | ⟨n, e, hf, _⟩
      · exact h
      · cases hf
  obtain ⟨_, _, hl, _⟩ := WriteFile_success hres
  refine ⟨hres, lookup_ancestors hl, fun q hq hnot => ?_⟩
  obtain ⟨_, _, f3, _⟩ := WriteFile_frame Faults.none s (.child parent c) data
  have hq2 := lookup_ancestors hl q hq
  rcases f3 q (fun h => not_mem_ancestors_self _ (h ▸ hq)) with h | ⟨_, h⟩
  · exfalso
    cases q with
    | root => exact hnot rfl
    | child qp qc =>
      obtain ⟨_, n, hn, hk⟩ := lookup_child_ok hq2
      rw [h] at hn
      have hqp := hwf qp qc (by rw [hn]; exact fun h => by cases h)
      exact hnot (by rw [lookup_child_of hqp hn, hk])
  · exact h

/-- C4 at a concrete input: the empty disk and `a/b/c.txt`. -/
theorem C4_creates_missing_parents_witness :
    WellFormed Disk.empty ∧
    lookup Disk.empty (filepathDir abcTxt) = .error .ENOENT ∧
    (diskFS.WriteFile Faults.none Disk.empty abcTxt hello).1 = Option.none ∧
    (∀ q, q ∈ abcTxt.ancestors →
      lookup (diskFS.WriteFile Faults.none Disk.empty abcTxt hello).2 q = .ok true) ∧
    (∀ q, q ∈ abcTxt.ancestors → lookup Disk.empty q ≠ .ok true →
      (diskFS.WriteFile Faults.none Disk.empty abcTxt hello).2.nodes q = some (.dir 0o755)) :=
  ⟨wellFormed_empty, rfl,
    C4_creates_missing_parents.1 Disk.empty abcTxt hello wellFormed_empty rfl⟩

/-- C5: if `WriteFile(name, d1)` and then `WriteFile(name, d2)` both return nil, the file
held `d1` in between and `ReadFile(name)` returns exactly `d2` in the end, whatever the
lengths of `d1` and `d2`: the `os.Create` of the second call leaves the file empty before
`d2` is written. The reads are those of the environment of the write before them, and the
last one also that of any environment that refuses no component of `name` and no read of
it. -/
theorem C5_second_write_wins (fl1 fl2 : Faults) (s : Disk) (name : Path) (d1 d2 : Bytes)
    (h1 : (diskFS.WriteFile fl1 s name d1).1 = Option.none)
    (h2 : (diskFS.WriteFile fl2 (diskFS.WriteFile fl1 s name d1).2 name d2).1 = Option.none) :
    (diskFS.ReadFile fl1 (diskFS.WriteFile fl1 s name d1).2 name).1 = (d1, Option.none) ∧
    (diskFS.ReadFile fl2
      (diskFS.WriteFile fl2 (diskFS.WriteFile fl1 s name d1).2 name d2).2 name).1 =
      (d2, Option.none) ∧
    (∀ f s3, osCreate fl2 (ensureDir fl2 (diskFS.WriteFile fl1 s name d1).2 name).2 name =
      (.ok f, s3) → s3.nodes name = some (.file [])) ∧
    (∀ fr, unrefused fr name = true → fr.read name = Option.none →
      (diskFS.ReadFile fr
        (diskFS.WriteFile fl2 (diskFS.WriteFile fl1 s name d1).2 name d2).2 name).1 =
        (d2, Option.none)) := by
  obtain ⟨_, _, hl1, hn1, hu1, hr1⟩ := WriteFile_success h1
  obtain ⟨_, _, hl2, hn2, hu2, hr2⟩ := WriteFile_success h2
  rw [ReadFile_of_file hl1 hu1 hr1 hn1, ReadFile_of_file hl2 hu2 hr2 hn2]
  refine ⟨rfl, rfl, fun f s3 h => (osCreate_truncates h).1, fun fr hu hr => ?_⟩
  rw [ReadFile_of_file hl2 hu hr hn2]

/-- C5 at a concrete input: `hello` and then the shorter `hi` written to `a/b/c.txt`; the
file holds `hi`. -/
theorem C5_second_write_wins_witness :
    (diskFS.WriteFile Faults.none Disk.empty abcTxt hello).1 = Option.none ∧
    (diskFS.WriteFile Faults.none (diskFS.WriteFile Faults.none Disk.empty abcTxt hello).2
      abcTxt [104, 105]).1 = Option.none ∧
    (diskFS.ReadFile Faults.none
      (diskFS.WriteFile Faults.none Disk.empty abcTxt hello).2 abcTxt).1 =
      (hello, Option.none) ∧
    (diskFS.ReadFile Faults.none (diskFS.WriteFile Faults.none
      (diskFS.WriteFile Faults.none Disk.empty abcTxt hello).2 abcTxt [104, 105]).2 abcTxt).1 =
      ([104, 105], Option.none) :=
  ⟨by decide, by decide,
    (C5_second_write_wins Faults.none Faults.none Disk.empty abcTxt hello [104, 105]
      (by decide) (by decide)).1,
    (C5_second_write_wins Faults.none Faults.none Disk.empty abcTxt hello [104, 105]
      (by decide) (by decide)).2.1⟩

/-- C6, as stated, fails: after `hello` was written to `a`, which is then a regular file,
no file is present at `a/b` and it was never written, yet the error of `ReadFile` for
`a/b` is `ENOTDIR`, which does not satisfy the not-exist predicate. Likewise, after
`hello` was written to `a/b/c.txt`, what is present at `a/b` is a directory, not a file,
and the error of `ReadFile` for it is `EISDIR`. And on the empty disk, where the lookup
of `a` is refused for lack of permission, the error of `ReadFile` for `a` is `EACCES`. -/
theorem C6_counterexample :
    (fileAtA.nodes underA = Option.none ∧
      diskFS.ReadFile Faults.none fileAtA underA =
        (([], some ⟨"open", underA, .ENOTDIR⟩), fileAtA) ∧
      IsNotExist (some ⟨"open", underA, .ENOTDIR⟩) = false) ∧
    ((diskFS.WriteFile Faults.none Disk.empty abcTxt hello).2.nodes underA =
        some (.dir 0o755) ∧
      (diskFS.ReadFile Faults.none
        (diskFS.WriteFile Faults.none Disk.empty abcTxt hello).2 underA).1 =
        ([], some ⟨"read", underA, .EISDIR⟩) ∧
      IsNotExist (some ⟨"read", underA, .EISDIR⟩) = false) ∧
    (Disk.empty.nodes (Path.ofList ["a"]) = Option.none ∧
      diskFS.ReadFile denySearchA Disk.empty (Path.ofList ["a"]) =
        (([], some ⟨"open", Path.ofList ["a"], .EACCES⟩), Disk.empty) ∧
      IsNotExist (some ⟨"open", Path.ofList ["a"], .EACCES⟩) = false) :=
  ⟨⟨rfl, rfl, rfl⟩, ⟨rfl, rfl, rfl⟩, ⟨rfl, rfl, rfl⟩⟩

/-- C6, amended: `ReadFile` returns what `os.ReadFile` returns, unmodified. At every path at
which no file is present that is no content and a non-nil error. The error is the
not-found error, which satisfies the not-exist predicate, when nothing is present at
`name`, no ancestor of `name` is a regular file and the operating system refuses no
component of `name`; in general it satisfies that predicate exactly when the error of the
stat of `name` does. It is `ENOTDIR` when an ancestor is a regular file, the refusal
(permission denied, name too long) when the lookup of a component that is reached or the
read of what is at `name` is refused, and `EISDIR` when `name` is a directory that may be
read; none of these satisfies the not-exist predicate. -/
theorem C6_read_missing (fl : Faults) (s : Disk) (name : Path) :
    diskFS.ReadFile fl s name = osReadFile fl s name ∧
    (lookup s name ≠ .ok false →
      (diskFS.ReadFile fl s name).1.1 = [] ∧ (diskFS.ReadFile fl s name).1.2 ≠ Option.none ∧
      (diskFS.ReadFile fl s name).2 = s) ∧
    (IsNotExist (diskFS.ReadFile fl s name).1.2 = true ↔
      IsNotExist (errOf (osStat fl s name)) = true) ∧
    ((∃ e, lookup s name = .error e) →
      (∀ q, q ∈ name.ancestors → lookup s q ≠ .ok false) → unrefused fl name = true →
      diskFS.ReadFile fl s name = (([], some ⟨"open", name, .ENOENT⟩), s) ∧
      IsNotExist (diskFS.ReadFile fl s name).1.2 = true) ∧
    ((∃ q, q ∈ name.ancestors ∧ lookup s q = .ok false) → unrefused fl name = true →
      diskFS.ReadFile fl s name = (([], some ⟨"open", name, .ENOTDIR⟩), s)) ∧
    (∀ parent c r, (Path.child parent c = name ∨ Path.child parent c ∈ name.ancestors) →
      resolve fl s parent = .ok true → fl.access (.child parent c) = some r →
      diskFS.ReadFile fl s name = (([], some ⟨"open", name, r.errno⟩), s) ∧
      IsNotExist (diskFS.ReadFile fl s name).1.2 = false) ∧
    (∀ b r, resolve fl s name = .ok b → fl.read name = some r →
      diskFS.ReadFile fl s name = (([], some ⟨"open", name, r.errno⟩), s) ∧
      IsNotExist (diskFS.ReadFile fl s name).1.2 = false) ∧
    (resolve fl s name = .ok true → fl.read name = Option.none →
      diskFS.ReadFile fl s name = (([], some ⟨"read", name, .EISDIR⟩), s)) := by
  refine ⟨rfl, fun hno => ?_, ?_, fun h1 h2 hu => ?_, fun h hu => ?_,
    fun parent c r hq hp hr => ?_, fun b r hb hr => ?_, fun h hr => ReadFile_of_dir h hr⟩
  · refine ⟨?_, ?_, osReadFile_snd fl s name⟩
    · cases hres : resolve fl s name with
      | error e => rw [ReadFile_of_error hres]
      | ok b =>
        cases hr : fl.read name with
        | some r => rw [ReadFile_of_refused_read hres hr]
        | none =>
          cases b with
          | true => rw [ReadFile_of_dir hres hr]
          | false => exact absurd (resolve_ok_iff.mp hres).1 hno
    · cases hres : resolve fl s name with
      | error e =>
        rw [ReadFile_of_error hres]
        exact fun h => by cases h
      | ok b =>
        cases hr : fl.read name with
        | some r =>
          rw [ReadFile_of_refused_read hres hr]
          exact fun h => by cases h
        | none =>
          cases b with
          | true =>
            rw [ReadFile_of_dir hres hr]
            exact fun h => by cases h
          | false => exact absurd (resolve_ok_iff.mp hres).1 hno
  · rw [isNotExist_stat_iff]
    cases hres : resolve fl s name with
    | error e =>
      rw [ReadFile_of_error hres]
      simp [IsNotExist]
    | ok b =>
      have hfalse : IsNotExist (diskFS.ReadFile fl s name).1.2 = false := by
        have h1 := osReadFile_fst fl s name
        rw [hres] at h1
        rw [show diskFS.ReadFile fl s name = osReadFile fl s name from rfl, h1]
        cases hr : fl.read name with
        | some r => exact isNotExist_refusal _ _ r
        | none =>
          cases b with
          | true => rfl
          | false =>
            cases hn : s.nodes name with
            | none => rfl
            | some n => cases n <;> rfl
      rw [hfalse]
      simp
  · have hres : resolve fl s name = .error .ENOENT := by
      rw [resolve_of_unrefused s hu]
      exact lookup_enoent_of_unblocked h1 h2
    rw [ReadFile_of_error hres]
    exact ⟨rfl, rfl⟩
  · obtain ⟨q, hq, hq2⟩ := h
    have hres : resolve fl s name = .error .ENOTDIR := by
      rw [resolve_of_unrefused s hu]
      exact lookup_below_file hq hq2
    exact ReadFile_of_error hres
  · rw [ReadFile_of_error (resolve_refused hq hp hr)]
    exact ⟨rfl, isNotExist_refusal _ _ r⟩
  · rw [ReadFile_of_refused_read hb hr]
    exact ⟨rfl, isNotExist_refusal _ _ r⟩

/-- C6 (amended) at concrete inputs: reading `a/b/c.txt` on the empty disk returns the
not-found error where nothing is refused, and `EACCES` where the lookup of `a` is
refused. -/
theorem C6_read_missing_witness :
    ((∃ e, lookup Disk.empty abcTxt = .error e) ∧
      (∀ q, q ∈ abcTxt.ancestors → lookup Disk.empty q ≠ .ok false) ∧
      unrefused Faults.none abcTxt = true ∧
      diskFS.ReadFile Faults.none Disk.empty abcTxt =
        (([], some ⟨"open", abcTxt, .ENOENT⟩), Disk.empty) ∧
      IsNotExist (diskFS.ReadFile Faults.none Disk.empty abcTxt).1.2 = true) ∧
    (Path.child .root "a" ∈ abcTxt.ancestors ∧
      denySearchA.access (.child .root "a") = some .EACCES ∧
      diskFS.ReadFile denySearchA Disk.empty abcTxt =
        (([], some ⟨"open", abcTxt, .EACCES⟩), Disk.empty) ∧
      IsNotExist (diskFS.ReadFile denySearchA Disk.empty abcTxt).1.2 = false) :=
  ⟨⟨⟨.ENOENT, rfl⟩, by decide, by decide,
      (C6_read_missing Faults.none Disk.empty abcTxt).2.2.2.1 ⟨.ENOENT, rfl⟩ (by decide)
        (by decide)⟩,
    ⟨by decide, rfl,
      (C6_read_missing denySearchA Disk.empty abcTxt).2.2.2.2.2.1 .root "a" .EACCES
        (Or.inr (by decide)) rfl rfl⟩⟩

/-- C7: `WriteFile` returns the error of the step that failed, as it is. A failed
`MkdirAll` (called when the stat of the parent reports not-exist) ends the call with its
error, in the state `MkdirAll` left, where no file was created or changed. A failed
`Create` ends the call with its error and the state as `Create` found it. After a
successful `Create` the call returns what `Write` returns. The call returns nil only if
none of the three failed. -/
theorem C7_errors_propagate (fl : Faults) (s : Disk) (name : Path) (data : Bytes) :
    (∀ err s1, IsNotExist (errOf (osStat fl s (filepathDir name))) = true →
      osMkdirAll fl s (filepathDir name) 0o755 = (some err, s1) →
        diskFS.WriteFile fl s name data = (some err, s1) ∧
        ∀ q d, s1.nodes q = some (.file d) ↔ s.nodes q = some (.file d)) ∧
    (∀ s1 err s2, ensureDir fl s name = (Option.none, s1) →
      osCreate fl s1 name = (.error err, s2) →
        diskFS.WriteFile fl s name data = (some err, s2) ∧ s2 = s1) ∧
    (∀ s1 f s2, ensureDir fl s name = (Option.none, s1) →
      osCreate fl s1 name = (.ok f, s2) →
        (diskFS.WriteFile fl s name data).1 = (fileWrite fl s2 f data).1.2) ∧
    ((diskFS.WriteFile fl s name data).1 = Option.none ↔
      (ensureDir fl s name).1 = Option.none ∧
        ∃ f s2, osCreate fl (ensureDir fl s name).2 name = (.ok f, s2) ∧
          (fileWrite fl s2 f data).1.2 = Option.none) := by
  refine ⟨fun err s1 h1 h2 => ?_, fun s1 err s2 h1 h2 => ?_, fun s1 f s2 h1 h2 => ?_, ?_⟩
  · have he : ensureDir fl s name = (some err, s1) := by
      rw [ensureDir, if_pos h1, h2]
    refine ⟨by rw [WriteFile_eq, he], fun q d => ?_⟩
    have hg := (osMkdirAll_effect fl 0o755 (filepathDir name) s).2.1 q
    rw [h2] at hg
    rcases hg with hg | ⟨hg1, hg2⟩
    · rw [hg]
    · rw [hg1, hg2]
      simp
  · refine ⟨by rw [WriteFile_eq, h1]; simp only [h2], ?_⟩
    rcases osCreate_cases fl s1 name with ⟨e, hc⟩ | ⟨_, _, _, _, _, _, hc⟩
    · rw [hc] at h2
      exact (Prod.mk.inj h2).2.symm
    · rw [hc] at h2
      cases (Prod.mk.inj h2).1
  · rw [WriteFile_eq, h1]
    simp only [h2]
  · rw [WriteFile_eq]
    cases he : ensureDir fl s name with
    | mk e1 s1 =>
      cases e1 with
      | some err => simp
      | none =>
        simp only [true_and]
        cases hc : osCreate fl s1 name with
        | mk r s2 =>
          cases r with
          | error err => simp
          | ok f =>
            simp only [Prod.mk.injEq, Except.ok.injEq]
            constructor
            · exact fun h => ⟨f, s2, ⟨rfl, rfl⟩, h⟩
            · rintro ⟨_, _, ⟨rfl, rfl⟩, h⟩
              exact h

/-- C7 at a concrete input: creating `a/b` is refused, so `WriteFile` for `a/b/c.txt` on the
empty disk returns that error, with `a` created and no file. -/
theorem C7_errors_propagate_witness :
    IsNotExist (errOf (osStat denyMkdirAB Disk.empty (filepathDir abcTxt))) = true ∧
    osMkdirAll denyMkdirAB Disk.empty (filepathDir abcTxt) 0o755 =
      (some ⟨"mkdir", underA, .EACCES⟩, Disk.empty.setNode (Path.ofList ["a"]) (.dir 0o755)) ∧
    diskFS.WriteFile denyMkdirAB Disk.empty abcTxt hello =
      (some ⟨"mkdir", underA, .EACCES⟩, Disk.empty.setNode (Path.ofList ["a"]) (.dir 0o755)) ∧
    ∀ q d, (Disk.empty.setNode (Path.ofList ["a"]) (.dir 0o755)).nodes q = some (.file d) ↔
      Disk.empty.nodes q = some (.file d) :=
  ⟨rfl, rfl,
    (C7_errors_propagate denyMkdirAB Disk.empty abcTxt hello).1
      ⟨"mkdir", underA, .EACCES⟩ (Disk.empty.setNode (Path.ofList ["a"]) (.dir 0o755))
      rfl rfl⟩

/-- C8: the table of open handles after `WriteFile` returns is the table before the call,
on each of its exit paths (nil, failed directory creation, failed file creation, failed
write). When `os.Create` fails inside the call no handle was entered; when it succeeds,
the handle it returns is a new one that is in the table until the deferred `Close`. -/
theorem C8_handles_released (fl : Faults) (s : Disk) (name : Path) (data : Bytes) :
    (diskFS.WriteFile fl s name data).2.handles = s.handles ∧
    (∀ err s2, osCreate fl (ensureDir fl s name).2 name = (.error err, s2) →
      s2.handles = s.handles) ∧
    (∀ f s2, osCreate fl (ensureDir fl s name).2 name = (.ok f, s2) →
      f ∉ s.handles ∧ s2.handles = f :: s.handles) := by
  have he := (ensureDir_effect fl s name).1
  refine ⟨(WriteFile_frame fl s name data).1, fun err s2 h => ?_, fun f s2 h => ?_⟩
  · rcases osCreate_cases fl (ensureDir fl s name).2 name with ⟨e, hc⟩ |
        ⟨_, _, _, _, _, _, hc⟩
    · rw [hc] at h
      rw [← (Prod.mk.inj h).2]
      exact he
    · rw [hc] at h
      cases (Prod.mk.inj h).1
  · obtain ⟨h1, h2⟩ := osCreate_handles h
    rw [he] at h1 h2
    exact ⟨h2, h1⟩

/-- C8 at a concrete input: the write fails for lack of space, `os.Create` had entered handle 0,
and no handle is open after the call. -/
theorem C8_handles_released_witness :
    (diskFS.WriteFile fullAfterTwo Disk.empty abcTxt hello).1 =
      some ⟨"write", abcTxt, .ENOSPC⟩ ∧
    (diskFS.WriteFile fullAfterTwo Disk.empty abcTxt hello).2.handles = [] ∧
    (osCreate fullAfterTwo (ensureDir fullAfterTwo Disk.empty abcTxt).2 abcTxt).1 =
      .ok ⟨0, abcTxt⟩ ∧
    (⟨0, abcTxt⟩ : File) ∉ Disk.empty.handles ∧
    (osCreate fullAfterTwo (ensureDir fullAfterTwo Disk.empty abcTxt).2 abcTxt).2.handles =
      [⟨0, abcTxt⟩] :=
  ⟨by decide, (C8_handles_released fullAfterTwo Disk.empty abcTxt hello).1, rfl,
    (C8_handles_released fullAfterTwo Disk.empty abcTxt hello).2.2 ⟨0, abcTxt⟩
      (osCreate fullAfterTwo (ensureDir fullAfterTwo Disk.empty abcTxt).2 abcTxt).2 rfl⟩

/-- C9: `IsFileExists` returns true wherever the stat succeeds, for a directory as for a
file; and after `WriteFile(name, data)` returns nil, `IsFileExists(filepath.Dir(name))` is
true, in every environment, although what is there is a directory: its stat says so, and
`ReadFile` fails on it, with `EISDIR` unless the read is refused. -/
theorem C9_exists_for_directories :
    (∀ (fl : Faults) (s : Disk) (p : Path) (fi : FileInfo), osStat fl s p = .ok fi →
      (diskFS.IsFileExists fl s p).1 = true) ∧
    (∀ (fl : Faults) (s : Disk) (name : Path) (data : Bytes),
      (diskFS.WriteFile fl s name data).1 = Option.none →
        (diskFS.IsFileExists fl (diskFS.WriteFile fl s name data).2 (filepathDir name)).1 =
          true ∧
        osStat fl (diskFS.WriteFile fl s name data).2 (filepathDir name) = .ok ⟨true⟩ ∧
        (diskFS.ReadFile fl (diskFS.WriteFile fl s name data).2 (filepathDir name)).1 =
          (match fl.read (filepathDir name) with
            | Option.none => ([], some ⟨"read", filepathDir name, .EISDIR⟩)
            | some r => ([], some ⟨"open", filepathDir name, r.errno⟩)) ∧
        ∀ fr, (diskFS.IsFileExists fr (diskFS.WriteFile fl s name data).2
          (filepathDir name)).1 = true) := by
  refine ⟨fun fl s p fi h => ?_, fun fl s name data h => ?_⟩
  · rw [IsFileExists_true_iff, osStat_ok_iff.mp h]
    exact fun h => by cases h
  · obtain ⟨_, hl, _, _⟩ := WriteFile_success h
    obtain ⟨hres, _⟩ := WriteFile_success_resolve h
    refine ⟨IsFileExists_of_lookup_ok fl hl, osStat_ok_iff.mpr hres, ?_,
      fun fr => IsFileExists_of_lookup_ok fr hl⟩
    cases hr : fl.read (filepathDir name) with
    | none => rw [ReadFile_of_dir hres hr]
    | some r => rw [ReadFile_of_refused_read hres hr]

/-- C9 at a concrete input: after `hello` was written to `a/b/c.txt`, `IsFileExists` is true
for the directory `a/b`. -/
theorem C9_exists_for_directories_witness :
    (diskFS.WriteFile Faults.none Disk.empty abcTxt hello).1 = Option.none ∧
    filepathDir abcTxt = underA ∧
    (diskFS.IsFileExists Faults.none
      (diskFS.WriteFile Faults.none Disk.empty abcTxt hello).2 underA).1 = true ∧
    osStat Faults.none (diskFS.WriteFile Faults.none Disk.empty abcTxt hello).2 underA =
      .ok ⟨true⟩ ∧
    (diskFS.ReadFile Faults.none
      (diskFS.WriteFile Faults.none Disk.empty abcTxt hello).2 underA).1 =
      ([], some ⟨"read", underA, .EISDIR⟩) :=
  ⟨by decide, rfl,
    (C9_exists_for_directories.2 Faults.none Disk.empty abcTxt hello (by decide)).1,
    (C9_exists_for_directories.2 Faults.none Disk.empty abcTxt hello (by decide)).2.1,
    (C9_exists_for_directories.2 Faults.none Disk.empty abcTxt hello (by decide)).2.2.1⟩

/-- C10: `ReadFile` and `IsFileExists` return the state they were given. `WriteFile(name,
data)`, whether it succeeds or fails, keeps the open handles, keeps every entry that is
neither `name` nor an ancestor of it, changes an ancestor only from missing to a directory
with mode `0o755`, and every other path that held a file is read with the same bytes
after the call as before, in whatever environment it is read. -/
theorem C10_frame (fl : Faults) (s : Disk) (name : Path) (data : Bytes) :
    (∀ fr p, (diskFS.ReadFile fr s p).2 = s) ∧
    (∀ fr p, (diskFS.IsFileExists fr s p).2 = s) ∧
    (diskFS.WriteFile fl s name data).2.handles = s.handles ∧
    (∀ q, q ≠ name → q ∉ name.ancestors →
      (diskFS.WriteFile fl s name data).2.nodes q = s.nodes q) ∧
    (∀ q, q ∈ name.ancestors → ((diskFS.WriteFile fl s name data).2.nodes q = s.nodes q ∨
      (s.nodes q = Option.none ∧
        (diskFS.WriteFile fl s name data).2.nodes q = some (.dir 0o755)))) ∧
    (∀ fr p bytes, p ≠ name → (diskFS.ReadFile fr s p).1 = (bytes, Option.none) →
      (diskFS.ReadFile fr (diskFS.WriteFile fl s name data).2 p).1 =
        (bytes, Option.none)) := by
  obtain ⟨f1, f2, f3, _⟩ := WriteFile_frame fl s name data
  refine ⟨fun fr p => osReadFile_snd fr s p, fun _ _ => rfl, f1, f2, fun q hq => ?_, ?_⟩
  · exact f3 q (fun h => not_mem_ancestors_self name (h ▸ hq))
  · intro fr p bytes hp hr
    obtain ⟨hl, hu, hrd, hn⟩ := ReadFile_ok_iff.mp hr
    obtain ⟨hl2, hn2⟩ := WriteFile_lookup_other fl s name data p false (Or.inr hp) hl
    have hroot : p ≠ .root := fun h => by
      rw [h] at hl
      cases hl
    exact ReadFile_ok_iff.mpr ⟨hl2, hu, hrd, (hn2 hroot).trans hn⟩

/-- C10 at a concrete input: writing to `a/d.txt` leaves the content of `a/b/c.txt` as it
was. -/
theorem C10_frame_witness :
    abcTxt ≠ dTxt ∧
    (diskFS.ReadFile Faults.none
      (diskFS.WriteFile Faults.none Disk.empty abcTxt hello).2 abcTxt).1 =
      (hello, Option.none) ∧
    (diskFS.ReadFile Faults.none (diskFS.WriteFile Faults.none
      (diskFS.WriteFile Faults.none Disk.empty abcTxt hello).2 dTxt [1, 2]).2 abcTxt).1 =
      (hello, Option.none) :=
  ⟨by decide, by decide,
    (C10_frame Faults.none (diskFS.WriteFile Faults.none Disk.empty abcTxt hello).2 dTxt
      [1, 2]).2.2.2.2.2 Faults.none abcTxt hello (by decide) (by decide)⟩

end cassette
